import Mathlib

/-!
Verification development for the `ratatui-cfg` metadata-driven configuration
menu (files `src/ratatui-cfg/src/lib.rs` and `src/ratatui-cfg-derive/src/lib.rs`).

The Rust library drives a navigable, editable menu over an arbitrarily deep,
statically typed configuration tree.  Field access is type erased
(`Box<dyn Any>` capsules with per-field getter/setter closures produced by the
`ConfigMenu` derive macro).  In this embedding a configuration instance is a
tree (`CVal`); because Rust guarantees that the live instance always matches
its static type, the per-type metadata list produced by
`ConfigMenuTrait::get_field_metadata` is recovered from the instance itself,
and the `downcast_ref`/`downcast_mut` runtime checks of the getter and setter
closures always succeed on the values the library actually passes them.

Leaf values cover the `String`, `bool` and fixed-width integer field types.
`f32`/`f64` leaves delegate their entire display/parse behaviour to the Rust
standard library float formatter and parser, which are outside this
repository; they are kept in the `FieldType` tag enumeration (mirroring the
source) but no claim below is settled on a float leaf.

Strings are processed as their character lists (`String.data`); byte indices
and char indices agree on the ASCII texts the claims exercise.
-/

/-! ## Text utilities (Rust `str::replace`, `str::contains`) -/

/-- Fuelled worker for `replaceAll` (structural recursion so that the kernel
can evaluate it; the fuel is always sufficient when it starts at the length of
the processed list). -/
def replaceAllF (pat rep : List Char) : Nat → List Char → List Char
  | _, [] => []
  | 0, l => l
  | fuel + 1, c :: cs =>
    if pat.isPrefixOf (c :: cs) ∧ pat ≠ [] then
      rep ++ replaceAllF pat rep fuel ((c :: cs).drop pat.length)
    else
      c :: replaceAllF pat rep fuel cs

/-- Rust `str::replace(pat, rep)`: replace every non-overlapping occurrence of
`pat`, scanning left to right.  The guard `pat ≠ []` mirrors the fact that the
library only ever replaces non-empty patterns. -/
def replaceAll (pat rep l : List Char) : List Char :=
  replaceAllF pat rep l.length l

/-- Rust `str::contains(pat)` (substring containment). -/
def containsSub (pat : List Char) : List Char → Bool
  | [] => pat.isEmpty
  | c :: cs => pat.isPrefixOf (c :: cs) || containsSub pat cs

/-- String-level wrapper for `replaceAll`. -/
def strReplace (s pat rep : String) : String :=
  String.mk (replaceAll pat.data rep.data s.data)

/-- String-level wrapper for `containsSub`. -/
def strContains (s pat : String) : Bool :=
  containsSub pat.data s.data

/-! ## Decimal formatting and parsing of integers

Rust `Debug` for the integer primitives prints the plain decimal form, and
`FromStr` accepts an optional `+`/`-` sign followed by one or more ASCII
digits, with a range check against the type bounds. -/

def isDigitChar (c : Char) : Bool :=
  48 ≤ c.toNat && c.toNat ≤ 57

def digitChar (d : Nat) : Char := Char.ofNat (48 + d)

/-- Fuelled worker for `natToChars` (the fuel is sufficient from `n`). -/
def natToCharsF : Nat → Nat → List Char
  | 0, n => [digitChar n]
  | fuel + 1, n =>
    if n < 10 then [digitChar n]
    else natToCharsF fuel (n / 10) ++ [digitChar (n % 10)]

/-- Big-endian decimal digits of a natural number (Rust `{:?}` on `uN`). -/
def natToChars (n : Nat) : List Char :=
  natToCharsF n n

/-- Numeric value of a big-endian digit list. -/
def digitsVal (cs : List Char) : Nat :=
  cs.foldl (fun a c => a * 10 + (c.toNat - 48)) 0

/-- Decimal form of an `Int` (Rust `Debug` for the signed integer types). -/
def intToChars (v : Int) : List Char :=
  if v < 0 then '-' :: natToChars v.natAbs else natToChars v.toNat

/-- Parse a non-empty all-digit run (the digit part of Rust integer
`from_str`). -/
def parseDigits (cs : List Char) : Except String Nat :=
  if cs ≠ [] ∧ cs.all isDigitChar then .ok (digitsVal cs) else .error "invalid digit"

/-- Rust `iN::from_str` / `uN::from_str`, modelled uniformly: optional sign,
digits, then the bounds check of the concrete type (`min`/`max`).  Matches the
standard library behaviour including `"-0"` parsing as `0` for unsigned
types. -/
def parseIntBounded (min max : Int) (cs : List Char) : Except String Int :=
  match cs with
  | [] => .error "cannot parse integer from empty string"
  | c :: rest =>
    match
      (if c = '+' then parseDigits rest
       else if c = '-' then (parseDigits rest).map (fun n => -(n : Int))
       else (parseDigits (c :: rest)).map (fun n => (n : Int)) :
        Except String Int) with
    | .error e => .error e
    | .ok v => if min ≤ v ∧ v ≤ max then .ok v else .error "number out of range"

/-! ## Rust `Debug` escaping of strings and `strip_debug_quotes`

`format!("{:?}", s)` for a `&str` wraps the text in double quotes and escapes
each character with `char::escape_debug`: backslash and double quote get a
leading backslash, `\n`/`\r`/`\t`/NUL become two-character escapes, and the
remaining control characters are printed as a braced unicode escape. -/

def hexDigitChar (d : Nat) : Char :=
  if d < 10 then Char.ofNat (48 + d) else Char.ofNat (87 + d)

/-- Fuelled worker for `natToHexChars` (the fuel is sufficient from `n`). -/
def natToHexCharsF : Nat → Nat → List Char
  | 0, n => [hexDigitChar n]
  | fuel + 1, n =>
    if n < 16 then [hexDigitChar n]
    else natToHexCharsF fuel (n / 16) ++ [hexDigitChar (n % 16)]

def natToHexChars (n : Nat) : List Char :=
  natToHexCharsF n n

/-- Rust `char::escape_debug` as used by the `Debug` impl of `str` (single quotes
are not escaped there). -/
def escDebugChar (c : Char) : List Char :=
  if c = '"' then ['\\', '"']
  else if c = '\\' then ['\\', '\\']
  else if c = '\n' then ['\\', 'n']
  else if c = '\r' then ['\\', 'r']
  else if c = '\t' then ['\\', 't']
  else if c.toNat = 0 then ['\\', '0']
  else if c.toNat < 32 ∨ c.toNat = 127 then
    '\\' :: 'u' :: Char.ofNat 123 :: natToHexChars c.toNat ++ [Char.ofNat 125]
  else [c]

/-- Rust `format!("{:?}", s)` for a string `s`. -/
def debugStrChars (s : String) : List Char :=
  '"' :: (s.data.map escDebugChar).flatten ++ ['"']

/-- Model of `strip_debug_quotes` (src/ratatui-cfg/src/lib.rs, lines 71-78): if the text
is wrapped in double quotes, drop them and undo the `\"` and `\\` escapes (in
that order); otherwise return the text unchanged.  Note it does not undo any
other `Debug` escape. -/
def strip_debug_quotes (s : String) : String :=
  let cs := s.data
  if (cs.head? = some '"') ∧ (cs.getLast? = some '"') ∧ 2 ≤ cs.length then
    String.mk (replaceAll ['\\', '\\'] ['\\'] (replaceAll ['\\', '"'] ['"'] (cs.drop 1).dropLast))
  else s

/-! ## Data model

`FieldType` mirrors the enumeration of src/ratatui-cfg/src/lib.rs lines 19-39.
`IntW` enumerates the integer widths; `isize`/`usize` are modelled as 64-bit
(the target the crate is built for). -/

inductive FieldType where
  | String | Bool
  | I8 | I16 | I32 | I64 | I128 | Isize
  | U8 | U16 | U32 | U64 | U128 | Usize
  | F32 | F64
  | Nested | Unknown
deriving DecidableEq, Repr

inductive IntW where
  | i8 | i16 | i32 | i64 | i128 | isz
  | u8 | u16 | u32 | u64 | u128 | usz
deriving DecidableEq, Repr

def IntW.minVal : IntW → Int
  | .i8 => -(2 ^ 7) | .i16 => -(2 ^ 15) | .i32 => -(2 ^ 31)
  | .i64 => -(2 ^ 63) | .i128 => -(2 ^ 127) | .isz => -(2 ^ 63)
  | .u8 | .u16 | .u32 | .u64 | .u128 | .usz => 0

def IntW.maxVal : IntW → Int
  | .i8 => 2 ^ 7 - 1 | .i16 => 2 ^ 15 - 1 | .i32 => 2 ^ 31 - 1
  | .i64 => 2 ^ 63 - 1 | .i128 => 2 ^ 127 - 1 | .isz => 2 ^ 63 - 1
  | .u8 => 2 ^ 8 - 1 | .u16 => 2 ^ 16 - 1 | .u32 => 2 ^ 32 - 1
  | .u64 => 2 ^ 64 - 1 | .u128 => 2 ^ 128 - 1 | .usz => 2 ^ 64 - 1

def IntW.tag : IntW → FieldType
  | .i8 => .I8 | .i16 => .I16 | .i32 => .I32 | .i64 => .I64
  | .i128 => .I128 | .isz => .Isize
  | .u8 => .U8 | .u16 => .U16 | .u32 => .U32 | .u64 => .U64
  | .u128 => .U128 | .usz => .Usize

/-- Primitive field types covered by the model (see the header note on
floats). -/
inductive PrimTy where
  | str | bool | int (w : IntW)
deriving DecidableEq, Repr

/-- A primitive leaf value. -/
inductive PrimVal where
  | s (v : String)
  | b (v : Bool)
  | i (w : IntW) (v : Int)
deriving DecidableEq, Repr

def PrimVal.ty : PrimVal → PrimTy
  | .s _ => .str
  | .b _ => .bool
  | .i w _ => .int w

def PrimTy.tag : PrimTy → FieldType
  | .str => .String
  | .bool => .Bool
  | .int w => w.tag

/-- A configuration instance.  `nested` is a struct deriving `ConfigMenu`
(title = struct name, ordered named fields); `optPrim` is an `Option`-typed
primitive field and `vec` a `Vec`-typed one (realisable through hand-written
`ConfigMenuTrait`/`ParsableField` impls; the derive macro marks them via
`is_option`/`is_vec` and `analyze_type` reports the inner primitive as the
field type). -/
inductive CVal where
  | prim (v : PrimVal)
  | optPrim (t : PrimTy) (v : Option PrimVal)
  | vec (t : PrimTy) (vs : List PrimVal)
  | nested (title : String) (fields : List (String × CVal))
deriving Repr

/-- Derive-macro `analyze_type`: the `is_nested` flag of a field (Option/Vec of a primitive
unwrap to the primitive, hence not nested). -/
def CVal.isNestedV : CVal → Bool
  | .nested _ _ => true
  | _ => false

/-- Derive-macro `analyze_type`: the `is_option` flag. -/
def CVal.isOptV : CVal → Bool
  | .optPrim _ _ => true
  | _ => false

/-- Derive-macro `analyze_type`: the `is_vec` flag. -/
def CVal.isVecV : CVal → Bool
  | .vec _ _ => true
  | _ => false

/-- Derive-macro `analyze_type` plus `FieldType::from_str`: the field type tag. -/
def CVal.fieldTypeOf : CVal → FieldType
  | .prim v => v.ty.tag
  | .optPrim t _ => t.tag
  | .vec t _ => t.tag
  | .nested _ _ => .Nested

/-- Fields of a struct instance (`get_field_metadata` order); empty for
non-struct values, which never occur as a controller configuration. -/
def CVal.fieldsOf : CVal → List (String × CVal)
  | .nested _ fs => fs
  | _ => []

/-- Trait method `get_menu_title`: the struct name. -/
def CVal.titleOf : CVal → String
  | .nested t _ => t
  | _ => ""

/-! ## `Debug` formatting (`format_field_value`, lines 67-69)

`format_field_value` is `format!("{:?}", value)`.  For a struct with derived
`Debug` the single-line form is `Name { field: value, ... }` (just `Name` when
the struct has no fields); `Option` prints `None`/`Some(inner)` and `Vec`
prints `[a, b, ...]`. -/

def debugPrim : PrimVal → String
  | .s v => String.mk (debugStrChars v)
  | .b v => if v then "true" else "false"
  | .i _ v => String.mk (intToChars v)

def debugOptPrim : Option PrimVal → String
  | none => "None"
  | some pv => "Some(" ++ debugPrim pv ++ ")"

def debugVecPrim (vs : List PrimVal) : String :=
  "[" ++ String.intercalate ", " (vs.map debugPrim) ++ "]"

mutual
def debugVal : CVal → String
  | .prim v => debugPrim v
  | .optPrim _ v => debugOptPrim v
  | .vec _ vs => debugVecPrim vs
  | .nested t fs =>
    match fs with
    | [] => t
    | _ => t ++ " \x7b " ++ debugFieldList fs ++ " \x7d"

def debugFieldList : List (String × CVal) → String
  | [] => ""
  | [(n, v)] => n ++ ": " ++ debugVal v
  | (n, v) :: f :: rest => n ++ ": " ++ debugVal v ++ ", " ++ debugFieldList (f :: rest)
end

/-- The getter closure generated by the derive macro: downcast the instance to
the struct type (always succeeds on the values the library passes) and
`Debug`-format the field value. -/
def getterM (v : CVal) : Option String :=
  some (debugVal v)

/-! ## Parsing (`ParsableField`, `parse_and_set`, lines 80-225)

`parse_and_set` overwrites the typed field with the parse result and leaves it
untouched when parsing fails.  The per-type `parse_from_string` impls:
`String` is the identity, `bool`/integers use the std `FromStr`.  The
`Option`/`Vec` cases have no `ParsableField` impl inside this repository and a
nested struct parses via `toml::from_str` (an external crate); neither is
exercised by any claim, so both are modelled as the error branch. -/

def parseBool (s : String) : Except String Bool :=
  if s = "true" then .ok true
  else if s = "false" then .ok false
  else .error ("Failed to parse " ++ s)

def parseIntW (w : IntW) (s : String) : Except String Int :=
  match parseIntBounded w.minVal w.maxVal s.data with
  | .ok v => .ok v
  | .error _ => .error ("Failed to parse " ++ s)

/-- The setter closure: downcast (always succeeds here) + `parse_and_set` on
the typed field. -/
def parse_and_set (fv : CVal) (value : String) : Except String CVal :=
  match fv with
  | .prim (.s _) => .ok (.prim (.s value))
  | .prim (.b _) => (parseBool value).map (fun x => CVal.prim (.b x))
  | .prim (.i w _) => (parseIntW w value).map (fun x => CVal.prim (.i w x))
  | .optPrim _ _ => .error "no ParsableField impl for Option fields in this repository"
  | .vec _ _ => .error "no ParsableField impl for Vec fields in this repository"
  | .nested _ _ => .error "nested-field text parse delegates to the external toml crate"

/-! ## Field lookup and update

`metadata.iter().find(|m| m.name == field_name)` locates the first descriptor
with the given name; the generated setter writes that struct field.  Rust
struct fields have distinct names, so first-match semantics is exact. -/

/-- First field with the given name. -/
def lookupField (fs : List (String × CVal)) (name : String) : Option CVal :=
  match fs.find? (fun p => p.1 == name) with
  | some p => some p.2
  | none => none

/-- Replace the first field with the given name (the write performed by the
generated setter / nested setter); no-op when the name is absent. -/
def setField (fs : List (String × CVal)) (name : String) (v : CVal) : List (String × CVal) :=
  match fs with
  | [] => []
  | p :: rest => if p.1 == name then (p.1, v) :: rest else p :: setField rest name v

/-- Write a named field of a struct instance (the `nested_setter` closure: the
runtime `downcast` type checks always succeed on the values the library
passes, after which the field is assigned). -/
def setRootField (config : CVal) (name : String) (v : CVal) : CVal :=
  match config with
  | .nested t fs => .nested t (setField fs name v)
  | other => other

/-! ## Specification-side path access

These two functions are the specification reading of §4.3 of the spec
("applies a new textual value to the leaf at the end of a field path"): plain
structural descent and functional update.  They are used to state what the
path resolver achieves and are compared against the source-mirroring
functions below. -/

/-- Read the value at a field path (spec reading of descent). -/
def lookupPathV : CVal → List String → Option CVal
  | v, [] => some v
  | .nested _ fs, n :: rest =>
    match lookupField fs n with
    | some fv => lookupPathV fv rest
    | none => none
  | _, _ :: _ => none

/-- Functionally replace the value at a field path (spec reading of the
copy-reconstruct-write descent); no-op on a dangling path. -/
def specSetPath : CVal → List String → CVal → CVal
  | _, [], newv => newv
  | .nested t fs, n :: rest, newv =>
    match lookupField fs n with
    | some fv => .nested t (setField fs n (specSetPath fv rest newv))
    | none => .nested t fs
  | v, _ :: _, _ => v

/-! ## The path resolver (lines 351-468)

Source-mirroring translations of `MenuController::apply_edit_at_path`,
`set_field_on_config`, `set_nested_field_recursive` and `update_nested_any`.
The Rust functions mutate `self.config` / a boxed capsule; every mutation of
the root happens as the final step of a success path, so the translation
returns the new configuration on success and implies the configuration is
unchanged on error.  Error strings name the same conditions as the source
(apostrophes around the interpolated names are omitted). -/

/-- Model of `MenuController::set_field_on_config` (lines 363-375). -/
def set_field_on_config (config : CVal) (field_name value : String) : Except String CVal :=
  match lookupField config.fieldsOf field_name with
  | none => .error ("Field " ++ field_name ++ " not found")
  | some fv =>
    match parse_and_set fv value with
    | .ok fv2 => .ok (setRootField config field_name fv2)
    | .error e => .error e

/-- Model of `MenuController::update_nested_any` (lines 417-468).  The
`metadata_getter` argument of the Rust function describes the capsule's
static type; it is recovered from the capsule itself (types always match at
runtime), and the `None` metadata-getter / getter / setter branches of the
source correspond to the non-struct cases here. -/
def update_nested_any (nested_any : CVal) (remaining_path : List String) (new_value : String) :
    Except String CVal :=
  match remaining_path with
  | [] => .ok nested_any
  | field_name :: rest =>
    match nested_any with
    | .nested t fs =>
      match lookupField fs field_name with
      | none => .error ("Field " ++ field_name ++ " not found in nested structure")
      | some field_val =>
        if rest.isEmpty then
          match parse_and_set field_val new_value with
          | .ok fv2 => .ok (.nested t (setField fs field_name fv2))
          | .error e => .error e
        else
          if field_val.isNestedV = false then
            .error ("Field " ++ field_name ++ " is not nested")
          else
            match update_nested_any field_val rest new_value with
            | .ok updated => .ok (.nested t (setField fs field_name updated))
            | .error e => .error e
    | _ => .error "No metadata getter for nested field"

/-- Model of `MenuController::set_nested_field_recursive` (lines 377-415): only called
with a path of length ≥ 2; indexes `field_path[0]`. -/
def set_nested_field_recursive (config : CVal) (field_path : List String) (new_value : String) :
    Except String CVal :=
  match field_path with
  | [] => .error "unreachable: set_nested_field_recursive requires a non-empty path"
  | root_field :: rest =>
    match lookupField config.fieldsOf root_field with
    | none => .error ("Field " ++ root_field ++ " not found")
    | some fv =>
      if fv.isNestedV = false then
        .error ("Field " ++ root_field ++ " is not nested")
      else
        match update_nested_any fv rest new_value with
        | .ok updated => .ok (setRootField config root_field updated)
        | .error e => .error e

/-- Model of `MenuController::apply_edit_at_path` (lines 351-361). -/
def apply_edit_at_path (config : CVal) (field_path : List String) (new_value : String) :
    Except String CVal :=
  match field_path with
  | [] => .error "Empty field path"
  | [n] => set_field_on_config config n new_value
  | _ => set_nested_field_recursive config field_path new_value

/-! ## Navigation state (`MenuState`, lines 546-778)

`list_state` is a ratatui `ListState`; only its `selected()` slot is
observable by the core, modelled as `listSelected`. -/

structure MenuItem where
  label : String
  value : String
  is_submenu : Bool
  is_vec_container : Bool
  field_type : FieldType
deriving Repr

structure MenuLevel where
  items : List MenuItem
  selection : Nat
  title : String
  field_path : List String
deriving Repr

structure MenuState where
  current_selection : Nat
  items : List MenuItem
  listSelected : Option Nat
  breadcrumb : List String
  menu_stack : List MenuLevel
deriving Repr

/-- One entry of `build_menu_items` / `build_menu_items_from_any` (lines
594-622 and 676-704): `Debug`-format the field value (`"N/A"` when the getter
yields nothing, which cannot happen on a matching instance), then for
`Option`-typed fields replace a text containing `"None"` by the unset marker
and otherwise strip every `"Some("` and every `")"`. -/
def buildItem (name : String) (fv : CVal) : MenuItem :=
  let value := (getterM fv).getD "N/A"
  let value_display :=
    if fv.isOptV then
      if strContains value "None" then "<not set>"
      else strReplace (strReplace value "Some(" "") ")" ""
    else value
  { label := name
    value := value_display
    is_submenu := fv.isNestedV
    is_vec_container := fv.isVecV
    field_type := fv.fieldTypeOf }

/-- Model of `MenuState::build_menu_items` (lines 594-622). -/
def build_menu_items (fs : List (String × CVal)) : List MenuItem :=
  fs.map (fun p => buildItem p.1 p.2)

/-- Model of `MenuState::build_menu_items_from_any` (lines 676-704); its body is
identical to `build_menu_items` up to the type of the instance argument. -/
def build_menu_items_from_any (fs : List (String × CVal)) : List MenuItem :=
  build_menu_items fs

/-- Model of `MenuState::new` (lines 570-592). -/
def MenuState.new (config : CVal) : MenuState :=
  let items := build_menu_items config.fieldsOf
  { current_selection := 0
    items := items
    listSelected := if items.isEmpty then none else some 0
    breadcrumb := [config.titleOf]
    menu_stack := [{ items := items, selection := 0, title := config.titleOf, field_path := [] }] }

/-- Model of `MenuState::get_current_item` (lines 758-760). -/
def MenuState.get_current_item (ms : MenuState) : Option MenuItem :=
  ms.items[ms.current_selection]?

/-- Model of `MenuState::enter_submenu_by_name` (lines 624-674).  The metadata is that
of `parent_config`'s static type — the very type of the passed instance — so
it is read off `parent_config`; the `unwrap` on `menu_stack.last()` is modelled
by the (unreachable) empty-stack error branch. -/
def MenuState.enter_submenu_by_name (ms : MenuState) (parent_config : CVal) (field_name : String) :
    Except String MenuState :=
  match lookupField parent_config.fieldsOf field_name with
  | none => .error ("Field " ++ field_name ++ " not found")
  | some fv =>
    if fv.isNestedV = false then
      .error ("Field " ++ field_name ++ " is not a nested structure")
    else
      match fv with
      | .nested _ nested_fs =>
        let nested_items := build_menu_items_from_any nested_fs
        match ms.menu_stack.getLast? with
        | none => .error "panic: menu_stack is empty"
        | some current_level =>
          let new_field_path := current_level.field_path ++ [field_name]
          let new_level : MenuLevel :=
            { items := nested_items
              selection := 0
              title := field_name
              field_path := new_field_path }
          .ok { ms with
                menu_stack := ms.menu_stack ++ [new_level]
                breadcrumb := ms.breadcrumb ++ [field_name]
                items := nested_items
                current_selection := 0
                listSelected := some 0 }
      | _ => .error ("No nested getter for field " ++ field_name)

/-- Model of `MenuState::get_current_field_path` (lines 706-718). -/
def MenuState.get_current_field_path (ms : MenuState) : List String :=
  let path := (ms.menu_stack.getLast?.map (fun l => l.field_path)).getD []
  match ms.get_current_item with
  | some item => path ++ [item.label]
  | none => path

/-- Model of `MenuState::get_navigation_path` (lines 720-726). -/
def MenuState.get_navigation_path (ms : MenuState) : List String :=
  (ms.menu_stack.drop 1).map (fun l => l.title)

/-- Model of `MenuState::next` (lines 728-738). -/
def MenuState.next (ms : MenuState) : MenuState :=
  if ms.items.isEmpty then ms
  else
    let i := match ms.listSelected with
      | some i => (i + 1) % ms.items.length
      | none => 0
    { ms with listSelected := some i, current_selection := i }

/-- Model of `MenuState::previous` (lines 740-756). -/
def MenuState.previous (ms : MenuState) : MenuState :=
  if ms.items.isEmpty then ms
  else
    let i := match ms.listSelected with
      | some i => if i = 0 then ms.items.length - 1 else i - 1
      | none => 0
    { ms with listSelected := some i, current_selection := i }

/-- Model of `MenuState::can_go_back` (lines 762-764). -/
def MenuState.can_go_back (ms : MenuState) : Bool :=
  1 < ms.menu_stack.length

/-- Model of `MenuState::go_back` (lines 766-777): pop the stack and the breadcrumb,
then restore the new top level's items and stored selection. -/
def MenuState.go_back (ms : MenuState) : MenuState :=
  if ms.can_go_back then
    match ms.menu_stack.dropLast.getLast? with
    | some prev_level =>
      { ms with
        menu_stack := ms.menu_stack.dropLast
        breadcrumb := ms.breadcrumb.dropLast
        items := prev_level.items
        current_selection := prev_level.selection
        listSelected := some prev_level.selection }
    | none =>
      { ms with
        menu_stack := ms.menu_stack.dropLast
        breadcrumb := ms.breadcrumb.dropLast }
  else ms

/-! ## The edit controller (`MenuController`, lines 247-544)

The `history : Record<ConfigEdit>` field is an undo scaffold that no input
path ever pushes to or replays (spec §9); it is omitted from the state.  The
`&mut self` methods are translated as pure state transformers; the fallible
ones return the new state together with the `Result`. -/

structure Ctrl where
  config : CVal
  menu_state : MenuState
  editing_mode : Bool
  edit_buffer : String
  edit_cursor : Nat
deriving Repr

/-- Model of `MenuController::new` (lines 257-267). -/
def Ctrl.new (config : CVal) : Ctrl :=
  { config := config
    menu_state := MenuState.new config
    editing_mode := false
    edit_buffer := ""
    edit_cursor := 0 }

/-- Model of `MenuController::start_editing` (lines 269-284). -/
def Ctrl.start_editing (c : Ctrl) : Ctrl :=
  match c.menu_state.get_current_item with
  | some item =>
    if item.is_submenu = false ∧ item.is_vec_container = false then
      let buf := if item.field_type = FieldType.String
        then strip_debug_quotes item.value else item.value
      { c with editing_mode := true, edit_buffer := buf, edit_cursor := buf.length }
    else c
  | none => c

/-- The rebuild-and-replay loop shared by `toggle_boolean` and
`finish_editing` (lines 302-313 and 333-344): re-enter each remembered level
by name against the (root) config; a failure is logged and the loop breaks. -/
def replayPath (ms : MenuState) (config : CVal) : List String → MenuState
  | [] => ms
  | field_name :: rest =>
    match ms.enter_submenu_by_name config field_name with
    | .ok ms2 => replayPath ms2 config rest
    | .error _ => ms

/-- Model of `MenuController::toggle_boolean` (lines 286-320). -/
def Ctrl.toggle_boolean (c : Ctrl) : Ctrl × Except String Unit :=
  match c.menu_state.get_current_item with
  | some item =>
    if item.field_type = FieldType.Bool ∧ item.is_submenu = false ∧
        item.is_vec_container = false then
      let new_value := if item.value = "true" then "false" else "true"
      let field_path := c.menu_state.get_current_field_path
      match apply_edit_at_path c.config field_path new_value with
      | .ok cfg2 =>
        let current_path := c.menu_state.get_navigation_path
        let ms2 := replayPath (MenuState.new cfg2) cfg2 current_path
        ({ c with config := cfg2, menu_state := ms2 }, .ok ())
      | .error e => (c, .error e)
    else (c, .ok ())
  | none => (c, .ok ())

/-- Model of `MenuController::finish_editing` (lines 322-349). -/
def Ctrl.finish_editing (c : Ctrl) : Ctrl × Except String Unit :=
  if c.editing_mode = false then (c, .ok ())
  else
    let new_value := c.edit_buffer
    let field_path := c.menu_state.get_current_field_path
    match apply_edit_at_path c.config field_path new_value with
    | .ok cfg2 =>
      let current_path := c.menu_state.get_navigation_path
      let ms2 := replayPath (MenuState.new cfg2) cfg2 current_path
      ({ c with config := cfg2, menu_state := ms2, editing_mode := false }, .ok ())
    | .error e => ({ c with editing_mode := false }, .error e)

/-- Model of `MenuController::enter_submenu` (lines 470-483): note the nested descent
is resolved against `self.config` — the root instance — whatever the current
stack depth. -/
def Ctrl.enter_submenu (c : Ctrl) : Ctrl × Except String Unit :=
  match c.menu_state.get_current_item with
  | none => (c, .error "No item selected")
  | some item =>
    if item.is_submenu = false then (c, .error "Current item is not a submenu")
    else
      match c.menu_state.enter_submenu_by_name c.config item.label with
      | .ok ms2 => ({ c with menu_state := ms2 }, .ok ())
      | .error e => (c, .error e)

/-- Model of `MenuController::cancel_editing` (lines 485-489). -/
def Ctrl.cancel_editing (c : Ctrl) : Ctrl :=
  { c with editing_mode := false, edit_buffer := "", edit_cursor := 0 }

/-- Model of `MenuController::handle_edit_input` (lines 503-506). -/
def Ctrl.handle_edit_input (c : Ctrl) (ch : Char) : Ctrl :=
  { c with edit_buffer := String.mk (c.edit_buffer.data.insertIdx c.edit_cursor ch)
           edit_cursor := c.edit_cursor + 1 }

/-- Model of `MenuController::handle_backspace` (lines 508-513). -/
def Ctrl.handle_backspace (c : Ctrl) : Ctrl :=
  if 0 < c.edit_cursor then
    { c with edit_buffer := String.mk (c.edit_buffer.data.eraseIdx (c.edit_cursor - 1))
             edit_cursor := c.edit_cursor - 1 }
  else c

/-- Model of `MenuController::handle_delete` (lines 515-519). -/
def Ctrl.handle_delete (c : Ctrl) : Ctrl :=
  if c.edit_cursor < c.edit_buffer.length then
    { c with edit_buffer := String.mk (c.edit_buffer.data.eraseIdx c.edit_cursor) }
  else c

/-- Model of `MenuController::move_cursor_left` (lines 521-525). -/
def Ctrl.move_cursor_left (c : Ctrl) : Ctrl :=
  if 0 < c.edit_cursor then { c with edit_cursor := c.edit_cursor - 1 } else c

/-- Model of `MenuController::move_cursor_right` (lines 527-531). -/
def Ctrl.move_cursor_right (c : Ctrl) : Ctrl :=
  if c.edit_cursor < c.edit_buffer.length then { c with edit_cursor := c.edit_cursor + 1 } else c

/-! Controller-level wrappers for the navigation moves the application layer
performs directly on `menu_state`. -/

def Ctrl.nextC (c : Ctrl) : Ctrl := { c with menu_state := c.menu_state.next }

def Ctrl.previousC (c : Ctrl) : Ctrl := { c with menu_state := c.menu_state.previous }

def Ctrl.go_backC (c : Ctrl) : Ctrl := { c with menu_state := c.menu_state.go_back }

/-! ## Reachable controller states

Closure of `MenuController::new` under every public operation (including the
rebuild-and-replay performed inside the commit paths).  A controller is
always constructed over a struct configuration. -/

inductive Reachable : Ctrl → Prop where
  | init (title : String) (fields : List (String × CVal)) :
      Reachable (Ctrl.new (CVal.nested title fields))
  | next {c : Ctrl} : Reachable c → Reachable c.nextC
  | previous {c : Ctrl} : Reachable c → Reachable c.previousC
  | enter {c : Ctrl} : Reachable c → Reachable c.enter_submenu.1
  | goBack {c : Ctrl} : Reachable c → Reachable c.go_backC
  | toggle {c : Ctrl} : Reachable c → Reachable c.toggle_boolean.1
  | finish {c : Ctrl} : Reachable c → Reachable c.finish_editing.1
  | startEdit {c : Ctrl} : Reachable c → Reachable c.start_editing
  | cancelEdit {c : Ctrl} : Reachable c → Reachable c.cancel_editing
  | editInput {c : Ctrl} (ch : Char) : Reachable c → Reachable (c.handle_edit_input ch)
  | backspace {c : Ctrl} : Reachable c → Reachable c.handle_backspace
  | delete {c : Ctrl} : Reachable c → Reachable c.handle_delete
  | cursorLeft {c : Ctrl} : Reachable c → Reachable c.move_cursor_left
  | cursorRight {c : Ctrl} : Reachable c → Reachable c.move_cursor_right

/-- Shared concrete configuration used by the witnesses: the §8 scenario
`{name: "alice", retries: 3, server: {host: "localhost", port: 8080}}`. -/
def sampleRoot : CVal :=
  .nested "Root"
    [("name", .prim (.s "alice")),
     ("retries", .prim (.i .i32 3)),
     ("server", .nested "Server"
        [("host", .prim (.s "localhost")),
         ("port", .prim (.i .u16 8080))])]

/-!
## C7: failed integer parse
-/

/-- Concrete controller for the C7 witness: an `i32` leaf, editing session
open with buffer `"not-a-number"`. -/
def intEditCtrl : Ctrl :=
  { Ctrl.new (.nested "Root" [("retries", .prim (.i .i32 3))]) with
    editing_mode := true, edit_buffer := "not-a-number" }

/-!
## C2: descending two levels (code evaluation)
-/

/-- A three-level configuration. -/
def deepRoot : CVal :=
  .nested "Root"
    [("server", .nested "Server"
       [("inner", .nested "Inner" [("x", .prim (.i .i32 0))])])]

/-!
## C3: no-op edit on a string containing a newline (code evaluation)
-/

/-- A configuration whose string leaf contains a line break. -/
def newlineRoot : CVal := .nested "Root" [("s", .prim (.s "a\nb"))]

/-!
## C4: toggle_boolean and the Editing state
-/

/-- A single boolean field. -/
def boolRoot : CVal := .nested "Root" [("enabled", .prim (.b true))]

/-- The editing session `toggle_boolean` implicitly performs: Editing mode
with the flipped text as buffer. -/
def toggledCtrl (c : Ctrl) (item : MenuItem) : Ctrl :=
  { c with
    editing_mode := true
    edit_buffer := (if item.value = "true" then "false" else "true") }

/-!
## C5: field-path length versus stack depth
-/

/-- The stack-shape invariant the navigation state actually maintains: the
stack is never empty and the level at index `i` carries a field path of
length `i` (so the top level's path length is the depth minus one). -/
def StackInv (ms : MenuState) : Prop :=
  ms.menu_stack ≠ [] ∧
  ∀ i (h : i < ms.menu_stack.length), (ms.menu_stack[i]).field_path.length = i

/-!
## C9: go_back
-/

/-- A root with a string leaf at index 0 and a submenu at index 1. -/
def twoRoot : CVal :=
  .nested "Root" [("a", .prim (.s "x")), ("srv", .nested "Server" [("h", .prim (.s "l"))])]

/-- The root level of the navigation state over `twoRoot`, as stored in the
menu stack. -/
def twoRootLevel : MenuLevel :=
  { items :=
      [{ label := "a", value := "\"x\"", is_submenu := false,
         is_vec_container := false, field_type := .String },
       { label := "srv", value := "Server \x7b h: \"l\" \x7d", is_submenu := true,
         is_vec_container := false, field_type := .Nested }]
    selection := 0
    title := "Root"
    field_path := [] }

/-- A present optional value over `optRoot` that the heuristic misreads. -/
def optRoot : CVal := .nested "Root" [("opt", .optPrim .str (some (.s "None")))]

/-- A boolean leaf that is not the first root field. -/
def offHeadRoot : CVal :=
  .nested "Root" [("a", .prim (.s "x")), ("enabled", .prim (.b true))]

theorem replaceAllF_congr (pat rep : List Char) :
    ∀ f1 f2 l, l.length ≤ f1 → l.length ≤ f2 →
      replaceAllF pat rep f1 l = replaceAllF pat rep f2 l := by
  intro f1
  induction f1 with
  | zero =>
    intro f2 l h1 _
    have : l = [] := List.length_eq_zero.mp (Nat.le_zero.mp h1)
    subst this
    cases f2 <;> rfl
  | succ f ih =>
    intro f2 l h1 h2
    match l with
    | [] => cases f2 <;> rfl
    | c :: cs =>
      match f2 with
      | 0 => exact absurd h2 (by simp)
      | f2' + 1 =>
        show replaceAllF pat rep (f + 1) (c :: cs) = replaceAllF pat rep (f2' + 1) (c :: cs)
        have h1' : cs.length ≤ f := by simp only [List.length_cons] at h1; omega
        have h2' : cs.length ≤ f2' := by simp only [List.length_cons] at h2; omega
        by_cases hc : pat.isPrefixOf (c :: cs) ∧ pat ≠ []
        · have hlen : ((c :: cs).drop pat.length).length ≤ cs.length := by
            have : 1 ≤ pat.length := by
              match pat, hc.2 with
              | p :: ps, _ => simp
            simp only [List.length_drop, List.length_cons]
            omega
          simp only [replaceAllF, if_pos hc]
          rw [ih _ _ (le_trans hlen h1') (le_trans hlen h2')]
        · simp only [replaceAllF, if_neg hc]
          rw [ih _ _ h1' h2']

theorem replaceAll_nil (pat rep : List Char) : replaceAll pat rep [] = [] := rfl

/-- Step equation for `replaceAll`. -/
theorem replaceAll_cons (pat rep : List Char) (c : Char) (cs : List Char) :
    replaceAll pat rep (c :: cs) =
      if pat.isPrefixOf (c :: cs) ∧ pat ≠ [] then
        rep ++ replaceAll pat rep ((c :: cs).drop pat.length)
      else
        c :: replaceAll pat rep cs := by
  show replaceAllF pat rep (cs.length + 1) (c :: cs) = _
  by_cases hc : pat.isPrefixOf (c :: cs) ∧ pat ≠ []
  · have hlen : ((c :: cs).drop pat.length).length ≤ cs.length := by
      have : 1 ≤ pat.length := by
        match pat, hc.2 with
        | p :: ps, _ => simp
      simp only [List.length_drop, List.length_cons]
      omega
    simp only [replaceAllF, if_pos hc]
    rw [replaceAllF_congr pat rep _ _ _ hlen le_rfl]
    rfl
  · simp only [replaceAllF, if_neg hc]
    rfl

theorem natToCharsF_congr : ∀ f1 f2 n, n ≤ f1 → n ≤ f2 →
    natToCharsF f1 n = natToCharsF f2 n := by
  intro f1
  induction f1 with
  | zero =>
    intro f2 n h1 _
    have : n = 0 := Nat.le_zero.mp h1
    subst this
    cases f2 <;> rfl
  | succ f ih =>
    intro f2 n h1 h2
    by_cases hn : n < 10
    · cases f2 with
      | zero =>
        have : n = 0 := Nat.le_zero.mp h2
        subst this
        rfl
      | succ f2' => simp [natToCharsF, if_pos hn]
    · cases f2 with
      | zero => omega
      | succ f2' =>
        have hq : n / 10 ≤ f := by omega
        have hq2 : n / 10 ≤ f2' := by omega
        simp only [natToCharsF, if_neg hn]
        rw [ih _ _ hq hq2]

/-- Step equation for `natToChars`. -/
theorem natToChars_eq (n : Nat) :
    natToChars n = if n < 10 then [digitChar n]
      else natToChars (n / 10) ++ [digitChar (n % 10)] := by
  show natToCharsF n n = _
  by_cases hn : n < 10
  · cases n with
    | zero => simp [natToCharsF]
    | succ m => simp [natToCharsF, if_pos hn]
  · have h10 : 10 ≤ n := Nat.le_of_not_lt hn
    obtain ⟨m, hm⟩ : ∃ m, n = m + 1 := ⟨n - 1, by omega⟩
    subst hm
    simp only [natToCharsF, if_neg hn]
    rw [natToCharsF_congr m ((m + 1) / 10) ((m + 1) / 10) (by omega) le_rfl]
    rfl

/-! ## Lemmas: field lookup and update -/

theorem lookupField_cons (p : String × CVal) (rest : List (String × CVal)) (n : String) :
    lookupField (p :: rest) n = if p.1 == n then some p.2 else lookupField rest n := by
  cases h : (p.1 == n) <;> simp [lookupField, List.find?_cons, h]

theorem setField_cons (p : String × CVal) (rest : List (String × CVal)) (n : String) (v : CVal) :
    setField (p :: rest) n v =
      if p.1 == n then (p.1, v) :: rest else p :: setField rest n v := rfl

/-- Reading back the field just written. -/
theorem lookupField_setField_self (fs : List (String × CVal)) (n : String) (v : CVal)
    (h : (lookupField fs n).isSome) :
    lookupField (setField fs n v) n = some v := by
  induction fs with
  | nil => simp [lookupField] at h
  | cons p rest ih =>
    rw [setField_cons]
    by_cases hp : (p.1 == n) = true
    · rw [if_pos hp, lookupField_cons]
      simp [hp]
    · rw [if_neg hp, lookupField_cons, if_neg hp]
      rw [lookupField_cons, if_neg hp] at h
      exact ih h

/-- Writing one field leaves every other field name untouched. -/
theorem lookupField_setField_ne (fs : List (String × CVal)) (n m : String) (v : CVal)
    (hnm : m ≠ n) :
    lookupField (setField fs n v) m = lookupField fs m := by
  induction fs with
  | nil => rfl
  | cons p rest ih =>
    rw [setField_cons]
    by_cases hp : (p.1 == n) = true
    · have hpm : (p.1 == m) = false := by
        have : p.1 = n := by simpa using hp
        subst this
        simpa using fun h => hnm h.symm
      rw [if_pos hp, lookupField_cons, lookupField_cons]
      simp only [hpm, if_neg]
      rfl
    · rw [if_neg hp, lookupField_cons, lookupField_cons]
      by_cases hm : (p.1 == m) = true
      · simp [hm]
      · simp only [hm, if_neg, Bool.false_eq_true]
        exact ih

/-! ## Lemmas: the path resolver refines the specification update -/

/-- Resolver lemma: `update_nested_any` on a path addressing a primitive leaf behaves as the
parse result mapped over the functional update: success rebuilds every
ancestor along the path, failure changes nothing. -/
theorem update_nested_any_spec (path : List String) :
    ∀ (capsule : CVal) (pv : PrimVal) (text : String),
      lookupPathV capsule path = some (.prim pv) → path ≠ [] →
      update_nested_any capsule path text =
        (parse_and_set (.prim pv) text).map (fun fv2 => specSetPath capsule path fv2) := by
  induction path with
  | nil => intro _ _ _ _ h; exact absurd rfl h
  | cons n rest ih =>
    intro capsule pv text hleaf _
    match capsule, hleaf with
    | .nested t fs, hleaf =>
      simp only [lookupPathV] at hleaf
      match hf : lookupField fs n, hleaf with
      | some fv0, hleaf =>
        have hleaf2 : lookupPathV fv0 rest = some (CVal.prim pv) := hleaf
        match rest, hleaf2 with
        | [], hleaf2 =>
          simp only [lookupPathV, Option.some.injEq] at hleaf2
          subst hleaf2
          have hstep : update_nested_any (CVal.nested t fs) [n] text =
              match parse_and_set (CVal.prim pv) text with
              | .ok fv2 => .ok (.nested t (setField fs n fv2))
              | .error e => .error e := by
            conv_lhs => rw [update_nested_any.eq_def]
            simp only [hf, List.isEmpty_nil, if_pos]
          rw [hstep]
          simp only [specSetPath, hf]
          cases parse_and_set (CVal.prim pv) text <;> rfl
        | r :: rs, hleaf2 =>
          match fv0, hleaf2 with
          | .nested t2 fs2, hleaf2 =>
            have hstep : update_nested_any (CVal.nested t fs) (n :: r :: rs) text =
                match update_nested_any (CVal.nested t2 fs2) (r :: rs) text with
                | .ok updated => .ok (.nested t (setField fs n updated))
                | .error e => .error e := by
              conv_lhs => rw [update_nested_any.eq_def]
              simp only [hf, List.isEmpty_cons, CVal.isNestedV, Bool.true_eq_false,
                Bool.false_eq_true, if_false]
            rw [hstep, ih (.nested t2 fs2) pv text hleaf2 (by simp)]
            simp only [specSetPath, hf]
            cases parse_and_set (CVal.prim pv) text <;> rfl

/-- Resolver lemma: `apply_edit_at_path` on a path addressing a primitive leaf refines the
specification update in the same way, at any depth ≥ 1. -/
theorem apply_edit_at_path_spec (config : CVal) (path : List String) (pv : PrimVal) (text : String)
    (hleaf : lookupPathV config path = some (.prim pv)) (hne : path ≠ []) :
    apply_edit_at_path config path text =
      (parse_and_set (.prim pv) text).map (fun fv2 => specSetPath config path fv2) := by
  match path, hne with
  | [n], _ =>
    match config, hleaf with
    | .nested t fs, hleaf =>
      simp only [lookupPathV] at hleaf
      match hf : lookupField fs n, hleaf with
      | some fv0, hleaf =>
        have hleaf2 : fv0 = CVal.prim pv := by
          have h3 : some fv0 = some (CVal.prim pv) := hleaf
          exact Option.some.inj h3
        subst hleaf2
        have hstep : apply_edit_at_path (CVal.nested t fs) [n] text =
            match parse_and_set (CVal.prim pv) text with
            | .ok fv2 => .ok (setRootField (CVal.nested t fs) n fv2)
            | .error e => .error e := by
          show set_field_on_config (CVal.nested t fs) n text = _
          rw [set_field_on_config.eq_def]
          simp only [CVal.fieldsOf, hf]
        rw [hstep]
        simp only [specSetPath, hf, setRootField]
        cases parse_and_set (CVal.prim pv) text <;> rfl
  | n :: r :: rs, _ =>
    match config, hleaf with
    | .nested t fs, hleaf =>
      simp only [lookupPathV] at hleaf
      match hf : lookupField fs n, hleaf with
      | some fv0, hleaf =>
        have hleaf2 : lookupPathV fv0 (r :: rs) = some (CVal.prim pv) := hleaf
        match fv0, hleaf2 with
        | .nested t2 fs2, hleaf2 =>
          have hstep : apply_edit_at_path (CVal.nested t fs) (n :: r :: rs) text =
              match update_nested_any (CVal.nested t2 fs2) (r :: rs) text with
              | .ok updated => .ok (setRootField (CVal.nested t fs) n updated)
              | .error e => .error e := by
            show set_nested_field_recursive (CVal.nested t fs) (n :: r :: rs) text = _
            rw [set_nested_field_recursive.eq_def]
            simp only [CVal.fieldsOf, hf, CVal.isNestedV, Bool.true_eq_false,
              Bool.false_eq_true, if_false]
          rw [hstep, update_nested_any_spec (r :: rs) (.nested t2 fs2) pv text hleaf2 (by simp)]
          simp only [specSetPath, hf, setRootField]
          cases parse_and_set (CVal.prim pv) text <;> rfl

/-! ## Lemmas: the specification update -/

/-- Reading the edited path back yields the new value. -/
theorem lookupPathV_specSetPath_self (path : List String) :
    ∀ (v old newv : CVal), lookupPathV v path = some old →
      lookupPathV (specSetPath v path newv) path = some newv := by
  induction path with
  | nil => intro v old newv _; simp [specSetPath, lookupPathV]
  | cons n rest ih =>
    intro v old newv hl
    match v, hl with
    | .nested t fs, hl =>
      simp only [lookupPathV] at hl
      match hf : lookupField fs n, hl with
      | some fv0, hl =>
        have hl2 : lookupPathV fv0 rest = some old := hl
        show lookupPathV (specSetPath (CVal.nested t fs) (n :: rest) newv) (n :: rest) = some newv
        have hset : specSetPath (CVal.nested t fs) (n :: rest) newv =
            .nested t (setField fs n (specSetPath fv0 rest newv)) := by
          simp only [specSetPath, hf]
        rw [hset]
        have hsome : (lookupField fs n).isSome := by rw [hf]; rfl
        simp only [lookupPathV, lookupField_setField_self fs n _ hsome]
        exact ih fv0 old newv hl2

/-- Every path that diverges from the edited one (neither a prefix of it nor
an extension of it) reads unchanged: siblings at every level, and everything
below them, are untouched. -/
theorem lookupPathV_specSetPath_frame (path : List String) :
    ∀ (v old newv : CVal) (q : List String), lookupPathV v path = some old →
      ¬ List.IsPrefix path q → ¬ List.IsPrefix q path →
      lookupPathV (specSetPath v path newv) q = lookupPathV v q := by
  induction path with
  | nil => intro v old newv q _ hpq _; exact absurd (List.nil_prefix) hpq
  | cons n rest ih =>
    intro v old newv q hl hpq hqp
    match v, hl with
    | .nested t fs, hl =>
      simp only [lookupPathV] at hl
      match hf : lookupField fs n, hl with
      | some fv0, hl =>
        have hl2 : lookupPathV fv0 rest = some old := hl
        have hset : specSetPath (CVal.nested t fs) (n :: rest) newv =
            .nested t (setField fs n (specSetPath fv0 rest newv)) := by
          simp only [specSetPath, hf]
        rw [hset]
        match q with
        | [] => exact absurd (List.nil_prefix) hqp
        | m :: q2 =>
          by_cases hmn : m = n
          · subst hmn
            have hpq2 : ¬ List.IsPrefix rest q2 := by
              intro hc
              exact hpq (List.cons_prefix_cons.mpr ⟨rfl, hc⟩)
            have hqp2 : ¬ List.IsPrefix q2 rest := by
              intro hc
              exact hqp (List.cons_prefix_cons.mpr ⟨rfl, hc⟩)
            have hsome : (lookupField fs m).isSome := by rw [hf]; rfl
            simp only [lookupPathV, lookupField_setField_self fs m _ hsome, hf]
            exact ih fv0 old newv q2 hl2 hpq2 hqp2
          · simp only [lookupPathV, lookupField_setField_ne fs n m _ hmn]

/-!
## C1: committing a value deep in the tree
-/

/-- C1: for every configuration, every field path of length ≥ 2 addressing a
primitive leaf, and every text that the leaf's type parses,
`apply_edit_at_path` succeeds and produces exactly the functional update of
the leaf: reading the same path back yields the new value, and every path
that diverges from the edited one (the siblings at every level, and
everything below them) reads unchanged. -/
theorem apply_edit_at_path_deep_commit (config : CVal) (path : List String) (pv : PrimVal)
    (text : String) (fv2 : CVal)
    (hleaf : lookupPathV config path = some (.prim pv))
    (hlen : 2 ≤ path.length)
    (hparse : parse_and_set (.prim pv) text = .ok fv2) :
    apply_edit_at_path config path text = .ok (specSetPath config path fv2) ∧
    lookupPathV (specSetPath config path fv2) path = some fv2 ∧
    ∀ q, ¬ List.IsPrefix path q → ¬ List.IsPrefix q path →
      lookupPathV (specSetPath config path fv2) q = lookupPathV config q := by
  have hne : path ≠ [] := by
    intro h
    subst h
    simp at hlen
  refine ⟨?_, ?_, ?_⟩
  · rw [apply_edit_at_path_spec config path pv text hleaf hne, hparse]
    rfl
  · exact lookupPathV_specSetPath_self path config _ fv2 hleaf
  · intro q hpq hqp
    exact lookupPathV_specSetPath_frame path config _ fv2 q hleaf hpq hqp

/-- Witness for C1 at the concrete input `path = [server, host]`,
`text = "remotehost"`. -/
theorem apply_edit_at_path_deep_commit_witness :
    lookupPathV sampleRoot ["server", "host"] = some (.prim (.s "localhost")) ∧
    2 ≤ (["server", "host"] : List String).length ∧
    parse_and_set (.prim (.s "localhost")) "remotehost" = .ok (.prim (.s "remotehost")) ∧
    (apply_edit_at_path sampleRoot ["server", "host"] "remotehost" =
        .ok (specSetPath sampleRoot ["server", "host"] (.prim (.s "remotehost"))) ∧
      lookupPathV (specSetPath sampleRoot ["server", "host"] (.prim (.s "remotehost")))
          ["server", "host"] = some (.prim (.s "remotehost")) ∧
      ∀ q, ¬ List.IsPrefix ["server", "host"] q → ¬ List.IsPrefix q ["server", "host"] →
        lookupPathV (specSetPath sampleRoot ["server", "host"] (.prim (.s "remotehost"))) q =
          lookupPathV sampleRoot q) :=
  ⟨rfl, by decide, rfl,
    apply_edit_at_path_deep_commit sampleRoot ["server", "host"] (.s "localhost")
      "remotehost" (.prim (.s "remotehost")) rfl (by decide) rfl⟩

/-- Behaviour of `finish_editing` in Editing mode when the path resolver fails: the
error is returned, the Editing flag is cleared, nothing else changes. -/
theorem finish_editing_of_error (c : Ctrl) (e : String) (hedit : c.editing_mode = true)
    (happ : apply_edit_at_path c.config c.menu_state.get_current_field_path c.edit_buffer =
      .error e) :
    c.finish_editing = ({ c with editing_mode := false }, .error e) := by
  rw [Ctrl.finish_editing.eq_def, hedit]
  rw [if_neg (show ¬(true = false) by simp)]
  simp only [happ]

/-- C7: when the current field path addresses an integer leaf and the buffer
text does not parse as that integer type, `finish_editing` returns the parse
error, clears the Editing flag, and leaves the configuration (and everything
else in the controller) unchanged — no partial write. -/
theorem finish_editing_parse_error_clears_editing (c : Ctrl) (w : IntW) (iv : Int)
    (hedit : c.editing_mode = true)
    (hleaf : lookupPathV c.config c.menu_state.get_current_field_path =
      some (.prim (.i w iv)))
    (herr : (parseIntW w c.edit_buffer).isOk = false) :
    ∃ e, c.finish_editing = ({ c with editing_mode := false }, .error e) := by
  obtain ⟨e, he⟩ : ∃ e, parseIntW w c.edit_buffer = .error e := by
    match h : parseIntW w c.edit_buffer with
    | .ok v => rw [h] at herr; exact absurd herr (by simp [Except.isOk, Except.toBool])
    | .error e => exact ⟨e, rfl⟩
  match hpath : c.menu_state.get_current_field_path with
  | [] =>
    refine ⟨"Empty field path", finish_editing_of_error c _ hedit ?_⟩
    rw [hpath]
    rfl
  | n :: rest =>
    refine ⟨e, finish_editing_of_error c e hedit ?_⟩
    rw [hpath] at hleaf ⊢
    have happ : apply_edit_at_path c.config (n :: rest) c.edit_buffer =
        (parse_and_set (.prim (.i w iv)) c.edit_buffer).map
          (fun fv2 => specSetPath c.config (n :: rest) fv2) :=
      apply_edit_at_path_spec c.config (n :: rest) (.i w iv) c.edit_buffer hleaf (by simp)
    have hps : parse_and_set (.prim (.i w iv)) c.edit_buffer = .error e := by
      show (parseIntW w c.edit_buffer).map (fun x => CVal.prim (.i w x)) = .error e
      rw [he]
      rfl
    rw [happ, hps]
    rfl

/-- Witness for C7 at the concrete controller `intEditCtrl`. -/
theorem finish_editing_parse_error_witness :
    intEditCtrl.editing_mode = true ∧
    lookupPathV intEditCtrl.config intEditCtrl.menu_state.get_current_field_path =
      some (.prim (.i .i32 3)) ∧
    (parseIntW .i32 intEditCtrl.edit_buffer).isOk = false ∧
    (∃ e, intEditCtrl.finish_editing = ({ intEditCtrl with editing_mode := false }, .error e)) :=
  ⟨rfl, rfl, rfl,
    finish_editing_parse_error_clears_editing intEditCtrl .i32 3 rfl rfl rfl⟩

/-!
## C8: entering a non-nested item fails without touching the state
-/

/-- C8: `enter_submenu` on a currently selected non-nested item fails with
the NotNested error and returns the controller — menu stack, selection,
items and breadcrumb — exactly as it was. -/
theorem enter_submenu_not_nested_unchanged (c : Ctrl) (item : MenuItem)
    (hitem : c.menu_state.get_current_item = some item)
    (hsub : item.is_submenu = false) :
    c.enter_submenu = (c, .error "Current item is not a submenu") := by
  rw [Ctrl.enter_submenu.eq_def, hitem]
  simp only [hsub, if_pos]

/-- Witness for C8: the freshly built controller over `sampleRoot` selects
the string leaf `name`. -/
theorem enter_submenu_not_nested_witness :
    (Ctrl.new sampleRoot).menu_state.get_current_item = some
      { label := "name", value := "\"alice\"", is_submenu := false,
        is_vec_container := false, field_type := .String } ∧
    (Ctrl.new sampleRoot).enter_submenu =
      (Ctrl.new sampleRoot, .error "Current item is not a submenu") :=
  ⟨rfl,
    enter_submenu_not_nested_unchanged (Ctrl.new sampleRoot)
      { label := "name", value := "\"alice\"", is_submenu := false,
        is_vec_container := false, field_type := .String } rfl rfl⟩

/-- C2 (code evaluation): entering the first submenu succeeds, the selected
item of the new level (`inner`) is nested, yet `enter_submenu` at stack depth
2 fails with a NotFound error and leaves the state unchanged, because the
field name is resolved against the root configuration instead of the current
level's instance. -/
theorem enter_submenu_depth2_resolves_against_root :
    ((Ctrl.new deepRoot).enter_submenu.2 = .ok ()) ∧
    ((Ctrl.new deepRoot).enter_submenu.1.menu_state.menu_stack.length = 2) ∧
    ((Ctrl.new deepRoot).enter_submenu.1.menu_state.get_current_item.map
      (fun i => (i.label, i.is_submenu)) = some ("inner", true)) ∧
    ((Ctrl.new deepRoot).enter_submenu.1.enter_submenu =
      ((Ctrl.new deepRoot).enter_submenu.1, .error "Field inner not found")) :=
  ⟨rfl, rfl, rfl, rfl⟩

/-- C3 (code evaluation): on the string leaf `"a\nb"` (a real line break),
`start_editing` initialises the buffer to the four characters `a`, `\`, `n`,
`b` — `strip_debug_quotes` undoes only the quote and backslash escapes of the
`Debug` form, not `\n` — and `finish_editing` with the unmodified buffer
succeeds but commits that four-character text, changing the stored value. -/
theorem noop_edit_rewrites_newline_string :
    (lookupPathV newlineRoot ["s"] = some (.prim (.s "a\nb"))) ∧
    ((Ctrl.new newlineRoot).start_editing.edit_buffer = "a\\nb") ∧
    ((Ctrl.new newlineRoot).start_editing.finish_editing.2 = .ok ()) ∧
    (lookupPathV (Ctrl.new newlineRoot).start_editing.finish_editing.1.config ["s"] =
      some (.prim (.s "a\\nb"))) ∧
    ("a\\nb" ≠ "a\nb") :=
  ⟨rfl, rfl, rfl, rfl, by decide⟩

/-- C4 counterexample: with the controller in Editing mode (entered through
`start_editing` on the boolean leaf), `toggle_boolean` still mutates the
configuration — the guard never consults `editing_mode` — contradicting the
claim that it mutates only outside the Editing state. -/
theorem toggle_boolean_mutates_while_editing :
    ((Ctrl.new boolRoot).start_editing.editing_mode = true) ∧
    (lookupPathV (Ctrl.new boolRoot).start_editing.config ["enabled"] =
      some (.prim (.b true))) ∧
    (lookupPathV (Ctrl.new boolRoot).start_editing.toggle_boolean.1.config ["enabled"] =
      some (.prim (.b false))) ∧
    (PrimVal.b false ≠ PrimVal.b true) :=
  ⟨rfl, rfl, rfl, by decide⟩

/-- C4 amended: `toggle_boolean` never changes the Editing flag, the buffer or
the cursor; when the selected item is a boolean, non-submenu, non-repeated
leaf it flips the textual value and runs exactly the commit path of
`finish_editing` (performed with the flipped text as buffer), regardless of
the Editing state; in every other state — wrong item kind or no item — it
performs no mutation and returns Ok. -/
theorem toggle_boolean_is_finish_editing_commit (c : Ctrl) :
    (c.toggle_boolean.1.editing_mode = c.editing_mode ∧
     c.toggle_boolean.1.edit_buffer = c.edit_buffer ∧
     c.toggle_boolean.1.edit_cursor = c.edit_cursor) ∧
    (∀ item, c.menu_state.get_current_item = some item →
      (item.field_type = FieldType.Bool ∧ item.is_submenu = false ∧
          item.is_vec_container = false →
        (c.toggle_boolean.1.config = (Ctrl.finish_editing (toggledCtrl c item)).1.config ∧
         c.toggle_boolean.1.menu_state =
            (Ctrl.finish_editing (toggledCtrl c item)).1.menu_state ∧
         c.toggle_boolean.2 = (Ctrl.finish_editing (toggledCtrl c item)).2)) ∧
      (¬(item.field_type = FieldType.Bool ∧ item.is_submenu = false ∧
          item.is_vec_container = false) →
        c.toggle_boolean = (c, .ok ()))) ∧
    (c.menu_state.get_current_item = none → c.toggle_boolean = (c, .ok ())) := by
  refine ⟨?_, ?_, ?_⟩
  · simp only [Ctrl.toggle_boolean]
    cases hcur : c.menu_state.get_current_item with
    | none => refine ⟨?_, ?_, ?_⟩ <;> trivial
    | some item =>
      by_cases hg : item.field_type = FieldType.Bool ∧ item.is_submenu = false ∧
          item.is_vec_container = false
      · simp only [if_pos hg]
        cases happ : apply_edit_at_path c.config c.menu_state.get_current_field_path
            (if item.value = "true" then "false" else "true") with
        | ok cfg2 => simp only [happ]; refine ⟨?_, ?_, ?_⟩ <;> trivial
        | error e => simp only [happ]; refine ⟨?_, ?_, ?_⟩ <;> trivial
      · simp only [if_neg hg]
        refine ⟨?_, ?_, ?_⟩ <;> trivial
  · intro item hitem
    constructor
    · intro hg
      simp only [Ctrl.toggle_boolean, hitem, if_pos hg, Ctrl.finish_editing, toggledCtrl,
        Bool.true_eq_false, if_false]
      cases happ : apply_edit_at_path c.config c.menu_state.get_current_field_path
          (if item.value = "true" then "false" else "true") with
      | ok cfg2 => simp only [happ]; refine ⟨?_, ?_, ?_⟩ <;> trivial
      | error e => simp only [happ]; refine ⟨?_, ?_, ?_⟩ <;> trivial
    · intro hg
      simp only [Ctrl.toggle_boolean, hitem, if_neg hg]
  · intro hnone
    simp only [Ctrl.toggle_boolean, hnone]

/-- Witness for C4 at the controller over `sampleRoot` with the string leaf
`name` selected (non-boolean: no mutation) — the boolean branch of the
characterisation is exercised by its own hypotheses elsewhere. -/
theorem toggle_boolean_is_finish_editing_commit_witness :
    ((Ctrl.new sampleRoot).toggle_boolean.1.editing_mode = (Ctrl.new sampleRoot).editing_mode ∧
     (Ctrl.new sampleRoot).toggle_boolean.1.edit_buffer = (Ctrl.new sampleRoot).edit_buffer ∧
     (Ctrl.new sampleRoot).toggle_boolean.1.edit_cursor = (Ctrl.new sampleRoot).edit_cursor) ∧
    ((Ctrl.new sampleRoot).menu_state.get_current_item = some
      { label := "name", value := "\"alice\"", is_submenu := false,
        is_vec_container := false, field_type := .String }) ∧
    ((Ctrl.new sampleRoot).toggle_boolean = (Ctrl.new sampleRoot, .ok ())) := by
  obtain ⟨h1, h2, _⟩ := toggle_boolean_is_finish_editing_commit (Ctrl.new sampleRoot)
  exact ⟨h1, rfl, (h2 _ rfl).2 (by decide)⟩

/-- What a successful `enter_submenu_by_name` does to the state. -/
theorem enter_submenu_by_name_ok (ms : MenuState) (cfg : CVal) (n : String) (ms2 : MenuState)
    (h : ms.enter_submenu_by_name cfg n = .ok ms2) :
    ∃ t fs lvl, lookupField cfg.fieldsOf n = some (.nested t fs) ∧
      ms.menu_stack.getLast? = some lvl ∧
      ms2 = { ms with
        menu_stack := ms.menu_stack ++
          [{ items := build_menu_items_from_any fs, selection := 0, title := n,
             field_path := lvl.field_path ++ [n] }],
        breadcrumb := ms.breadcrumb ++ [n],
        items := build_menu_items_from_any fs,
        current_selection := 0,
        listSelected := some 0 } := by
  cases hf : lookupField cfg.fieldsOf n with
  | none =>
    simp only [MenuState.enter_submenu_by_name, hf] at h
    exact Except.noConfusion h
  | some fv =>
    cases fv with
    | prim v =>
      simp only [MenuState.enter_submenu_by_name, hf, CVal.isNestedV, if_true, if_pos] at h
      exact Except.noConfusion h
    | optPrim t v =>
      simp only [MenuState.enter_submenu_by_name, hf, CVal.isNestedV, if_true, if_pos] at h
      exact Except.noConfusion h
    | vec t vs =>
      simp only [MenuState.enter_submenu_by_name, hf, CVal.isNestedV, if_true, if_pos] at h
      exact Except.noConfusion h
    | nested t fs =>
      cases hl : ms.menu_stack.getLast? with
      | none =>
        simp only [MenuState.enter_submenu_by_name, hf, CVal.isNestedV, hl,
          Bool.true_eq_false, if_false] at h
        exact Except.noConfusion h
      | some lvl =>
        simp only [MenuState.enter_submenu_by_name, hf, CVal.isNestedV, hl,
          Bool.true_eq_false, if_false, Except.ok.injEq] at h
        exact ⟨t, fs, lvl, rfl, rfl, h.symm⟩

theorem stackInv_new (config : CVal) : StackInv (MenuState.new config) := by
  constructor
  · simp [MenuState.new]
  · intro i h
    simp only [MenuState.new, List.length_singleton] at h
    have hi : i = 0 := by omega
    subst hi
    simp [MenuState.new]

theorem stackInv_enter (ms : MenuState) (cfg : CVal) (n : String) (ms2 : MenuState)
    (h : ms.enter_submenu_by_name cfg n = .ok ms2) (hinv : StackInv ms) : StackInv ms2 := by
  obtain ⟨t, fs, lvl, _, hl, hms2⟩ := enter_submenu_by_name_ok ms cfg n ms2 h
  obtain ⟨hne, hlen⟩ := hinv
  have hstacklen : 0 < ms.menu_stack.length := List.length_pos.mpr hne
  have hlvl : lvl.field_path.length = ms.menu_stack.length - 1 := by
    rw [List.getLast?_eq_getElem?] at hl
    have hx : ms.menu_stack.length - 1 < ms.menu_stack.length := by omega
    rw [List.getElem?_eq_getElem hx] at hl
    have := hlen (ms.menu_stack.length - 1) hx
    rw [Option.some.inj hl] at this
    exact this
  subst hms2
  constructor
  · simp
  · intro i h
    simp only [List.length_append, List.length_singleton] at h
    by_cases hi : i < ms.menu_stack.length
    · rw [List.getElem_append_left hi]
      exact hlen i hi
    · have hieq : i = ms.menu_stack.length := by omega
      subst hieq
      simp only [List.getElem_concat_length]
      simp only [List.length_append, List.length_singleton]
      omega

theorem stackInv_replay (names : List String) :
    ∀ (ms : MenuState) (cfg : CVal), StackInv ms → StackInv (replayPath ms cfg names) := by
  induction names with
  | nil => intro ms cfg hinv; exact hinv
  | cons n rest ih =>
    intro ms cfg hinv
    simp only [replayPath]
    cases he : ms.enter_submenu_by_name cfg n with
    | ok ms2 => exact ih ms2 cfg (stackInv_enter ms cfg n ms2 he hinv)
    | error e => exact hinv

theorem stackInv_go_back (ms : MenuState) (hinv : StackInv ms) : StackInv ms.go_back := by
  obtain ⟨hne, hlen⟩ := hinv
  rw [MenuState.go_back]
  by_cases hgb : ms.can_go_back = true
  · rw [if_pos hgb]
    rw [MenuState.can_go_back, decide_eq_true_eq] at hgb
    have hlen2 : ms.menu_stack.dropLast.length = ms.menu_stack.length - 1 := by
      simp [List.length_dropLast]
    cases hl : ms.menu_stack.dropLast.getLast? with
    | none =>
      rw [List.getLast?_eq_getElem?] at hl
      have hx : ms.menu_stack.dropLast.length - 1 < ms.menu_stack.dropLast.length := by omega
      rw [List.getElem?_eq_getElem hx] at hl
      exact Option.noConfusion hl
    | some prev =>
      constructor
      · show ms.menu_stack.dropLast ≠ []
        intro hcon
        rw [hcon] at hlen2
        simp at hlen2
        omega
      · intro i h
        show (ms.menu_stack.dropLast[i]).field_path.length = i
        have hi2 : i < ms.menu_stack.length - 1 := by
          rw [hlen2] at h
          exact h
        rw [List.getElem_dropLast]
        exact hlen i (by omega)
  · rw [if_neg hgb]
    exact ⟨hne, hlen⟩

/-- The toggle/finish commit path preserves the stack invariant. -/
theorem stackInv_commit (cfg2 : CVal) (names : List String) :
    StackInv (replayPath (MenuState.new cfg2) cfg2 names) :=
  stackInv_replay names (MenuState.new cfg2) cfg2 (stackInv_new cfg2)

/-- Moving the selection with `next` does not touch the menu stack. -/
theorem next_stack_eq (ms : MenuState) : ms.next.menu_stack = ms.menu_stack := by
  rw [MenuState.next]
  split <;> rfl

/-- Moving the selection with `previous` does not touch the menu stack. -/
theorem previous_stack_eq (ms : MenuState) : ms.previous.menu_stack = ms.menu_stack := by
  rw [MenuState.previous]
  split <;> rfl

/-- Opening an edit session with `start_editing` does not touch the navigation state. -/
theorem start_editing_ms_eq (c : Ctrl) : c.start_editing.menu_state = c.menu_state := by
  rw [Ctrl.start_editing]
  cases c.menu_state.get_current_item with
  | none => rfl
  | some item =>
    by_cases hcond : item.is_submenu = false ∧ item.is_vec_container = false
    · simp only [if_pos hcond]
    · simp only [if_neg hcond]

/-- Transport of the stack invariant along an equal stack. -/
theorem stackInv_stack_eq (ms1 ms2 : MenuState) (h : ms2.menu_stack = ms1.menu_stack)
    (hinv : StackInv ms1) : StackInv ms2 := by
  rw [StackInv, h]
  exact hinv

/-- Every reachable controller state satisfies the stack invariant. -/
theorem stackInv_reachable (c : Ctrl) (h : Reachable c) : StackInv c.menu_state := by
  induction h with
  | init title fields => exact stackInv_new _
  | @next c _ ih => exact stackInv_stack_eq _ _ (next_stack_eq c.menu_state) ih
  | @previous c _ ih => exact stackInv_stack_eq _ _ (previous_stack_eq c.menu_state) ih
  | @enter c _ ih =>
    show StackInv c.enter_submenu.1.menu_state
    rw [Ctrl.enter_submenu]
    cases c.menu_state.get_current_item with
    | none => exact ih
    | some item =>
      by_cases hs : item.is_submenu = false
      · simp only [if_pos hs]
        exact ih
      · simp only [if_neg hs]
        cases he : c.menu_state.enter_submenu_by_name c.config item.label with
        | ok ms2 => exact stackInv_enter _ _ _ _ he ih
        | error e => exact ih
  | @goBack c _ ih => exact stackInv_go_back _ ih
  | @toggle c _ ih =>
    show StackInv c.toggle_boolean.1.menu_state
    rw [Ctrl.toggle_boolean]
    cases c.menu_state.get_current_item with
    | none => exact ih
    | some item =>
      by_cases hg : item.field_type = FieldType.Bool ∧ item.is_submenu = false ∧
          item.is_vec_container = false
      · simp only [if_pos hg]
        cases happ : apply_edit_at_path c.config c.menu_state.get_current_field_path
            (if item.value = "true" then "false" else "true") with
        | ok cfg2 => exact stackInv_commit cfg2 _
        | error e => exact ih
      · simp only [if_neg hg]
        exact ih
  | @finish c _ ih =>
    show StackInv c.finish_editing.1.menu_state
    rw [Ctrl.finish_editing]
    by_cases he : c.editing_mode = false
    · simp only [if_pos he]
      exact ih
    · simp only [if_neg he]
      cases happ : apply_edit_at_path c.config c.menu_state.get_current_field_path
          c.edit_buffer with
      | ok cfg2 => exact stackInv_commit cfg2 _
      | error e => exact ih
  | @startEdit c _ ih => exact stackInv_stack_eq _ _ (by rw [start_editing_ms_eq]) ih
  | @cancelEdit c _ ih => exact ih
  | @editInput c ch _ ih => exact ih
  | @backspace c _ ih =>
    show StackInv c.handle_backspace.menu_state
    rw [Ctrl.handle_backspace]
    split <;> exact ih
  | @delete c _ ih =>
    show StackInv c.handle_delete.menu_state
    rw [Ctrl.handle_delete]
    split <;> exact ih
  | @cursorLeft c _ ih =>
    show StackInv c.move_cursor_left.menu_state
    rw [Ctrl.move_cursor_left]
    split <;> exact ih
  | @cursorRight c _ ih =>
    show StackInv c.move_cursor_right.menu_state
    rw [Ctrl.move_cursor_right]
    split <;> exact ih

/-- C5 counterexample: already the freshly constructed (hence reachable)
controller violates the claim as stated — the root level's field path is
empty (length 0) while the menu stack has depth 1. -/
theorem field_path_length_ne_depth_initially :
    Reachable (Ctrl.new sampleRoot) ∧
    ((Ctrl.new sampleRoot).menu_state.menu_stack.getLast?.map
      (fun l => l.field_path.length) = some 0) ∧
    ((Ctrl.new sampleRoot).menu_state.menu_stack.length = 1) ∧
    ((0 : Nat) ≠ 1) :=
  ⟨Reachable.init "Root" _, rfl, rfl, by decide⟩

/-- C5 amended: at every reachable controller state the menu stack is
non-empty and the length of the top level's field path equals the stack depth
minus one (the root level carries the empty path). -/
theorem field_path_length_eq_depth_minus_one (c : Ctrl) (h : Reachable c) :
    c.menu_state.menu_stack ≠ [] ∧
    ∀ top, c.menu_state.menu_stack.getLast? = some top →
      top.field_path.length = c.menu_state.menu_stack.length - 1 := by
  obtain ⟨hne, hlen⟩ := stackInv_reachable c h
  refine ⟨hne, ?_⟩
  intro top htop
  rw [List.getLast?_eq_getElem?] at htop
  have hpos : 0 < c.menu_state.menu_stack.length := List.length_pos.mpr hne
  have hx : c.menu_state.menu_stack.length - 1 < c.menu_state.menu_stack.length := by omega
  rw [List.getElem?_eq_getElem hx] at htop
  rw [← Option.some.inj htop]
  exact hlen _ hx

/-- Witness for C5 at the freshly constructed controller over `deepRoot`
after entering its submenu (a reachable state of depth 2). -/
theorem field_path_length_eq_depth_minus_one_witness :
    Reachable (Ctrl.new deepRoot).enter_submenu.1 ∧
    ((Ctrl.new deepRoot).enter_submenu.1.menu_state.menu_stack ≠ [] ∧
     ∀ top, (Ctrl.new deepRoot).enter_submenu.1.menu_state.menu_stack.getLast? = some top →
       top.field_path.length =
         (Ctrl.new deepRoot).enter_submenu.1.menu_state.menu_stack.length - 1) :=
  ⟨Reachable.enter (Reachable.init "Root" _),
   field_path_length_eq_depth_minus_one (Ctrl.new deepRoot).enter_submenu.1
     (Reachable.enter (Reachable.init "Root" _))⟩

/-- C9 counterexample: select item 1, enter the submenu, and go back — the
restored selection is the one stored in the stack level (0, its value at
creation), not the selection 1 held before entering. -/
theorem go_back_selection_not_restored :
    ((Ctrl.new twoRoot).nextC.menu_state.current_selection = 1) ∧
    ((Ctrl.new twoRoot).nextC.enter_submenu.2 = .ok ()) ∧
    ((Ctrl.new twoRoot).nextC.enter_submenu.1.go_backC.menu_state.current_selection = 0) ∧
    ((0 : Nat) ≠ 1) :=
  ⟨rfl, rfl, rfl, by decide⟩

/-- What a successful `enter_submenu` does at the controller level. -/
theorem enter_submenu_ok (c c2 : Ctrl) (h : c.enter_submenu = (c2, .ok ())) :
    ∃ item ms2, c.menu_state.get_current_item = some item ∧ item.is_submenu = true ∧
      c.menu_state.enter_submenu_by_name c.config item.label = .ok ms2 ∧
      c2 = { c with menu_state := ms2 } := by
  rw [Ctrl.enter_submenu] at h
  cases hcur : c.menu_state.get_current_item with
  | none =>
    simp only [hcur] at h
    exact Except.noConfusion (congrArg Prod.snd h)
  | some item =>
    simp only [hcur] at h
    by_cases hs : item.is_submenu = false
    · rw [if_pos hs] at h
      exact Except.noConfusion (congrArg Prod.snd h)
    · rw [if_neg hs] at h
      cases he : c.menu_state.enter_submenu_by_name c.config item.label with
      | ok ms2 =>
        rw [he] at h
        refine ⟨item, ms2, rfl, by revert hs; cases item.is_submenu <;> simp, he, ?_⟩
        have := congrArg Prod.fst h
        exact this.symm
      | error e =>
        rw [he] at h
        exact Except.noConfusion (congrArg Prod.snd h)

/-- C9 amended: `go_back` at stack depth 1 changes nothing at all; at depth
greater than 1 (here: immediately after a successful `enter_submenu`) it pops
the pushed level, restores the previous level's items and breadcrumb, and
sets the selection to the value stored in that level — which is the selection
recorded when the level was created, not necessarily the selection held when
it was current. -/
theorem go_back_noop_or_pop_stored_selection :
    (∀ ms : MenuState, ms.menu_stack.length ≤ 1 → ms.go_back = ms) ∧
    (∀ (c c2 : Ctrl) (top : MenuLevel),
      c.menu_state.menu_stack.getLast? = some top →
      c.menu_state.items = top.items →
      c.enter_submenu = (c2, .ok ()) →
      c2.menu_state.go_back = { c.menu_state with
        current_selection := top.selection,
        listSelected := some top.selection }) := by
  constructor
  · intro ms hlen
    rw [MenuState.go_back, if_neg]
    intro hgb
    rw [MenuState.can_go_back, decide_eq_true_eq] at hgb
    omega
  · intro c c2 top htop hitems henter
    obtain ⟨item, ms2, hcur, hsub, he, hc2⟩ := enter_submenu_ok c c2 henter
    obtain ⟨t, fs, lvl, hf, hl, hms2⟩ := enter_submenu_by_name_ok _ _ _ _ he
    have hlvl : lvl = top := by
      rw [htop] at hl
      exact (Option.some.inj hl).symm
    subst hlvl
    subst hc2
    subst hms2
    show MenuState.go_back _ = _
    rw [MenuState.go_back]
    have hne : c.menu_state.menu_stack ≠ [] := by
      intro hcon
      rw [hcon] at htop
      exact Option.noConfusion htop
    have hpos : 0 < c.menu_state.menu_stack.length := List.length_pos.mpr hne
    rw [if_pos]
    · simp only [List.dropLast_concat, htop]
      rw [hitems]
    · show MenuState.can_go_back _ = true
      rw [MenuState.can_go_back, decide_eq_true_eq]
      simp only [List.length_append, List.length_singleton]
      omega

/-- Witness for C9: the depth-1 no-op at the fresh state over `twoRoot`, and
the pop-and-restore after entering `srv` from selection 1. -/
theorem go_back_noop_or_pop_stored_selection_witness :
    ((MenuState.new twoRoot).menu_stack.length ≤ 1 ∧
     (MenuState.new twoRoot).go_back = MenuState.new twoRoot) ∧
    ((Ctrl.new twoRoot).nextC.menu_state.menu_stack.getLast? = some twoRootLevel ∧
     (Ctrl.new twoRoot).nextC.menu_state.items = twoRootLevel.items ∧
     (Ctrl.new twoRoot).nextC.enter_submenu =
       ((Ctrl.new twoRoot).nextC.enter_submenu.1, .ok ()) ∧
     (Ctrl.new twoRoot).nextC.enter_submenu.1.menu_state.go_back =
       { (Ctrl.new twoRoot).nextC.menu_state with
         current_selection := twoRootLevel.selection,
         listSelected := some twoRootLevel.selection }) :=
  ⟨⟨by decide, go_back_noop_or_pop_stored_selection.1 (MenuState.new twoRoot) (by decide)⟩,
   rfl, rfl, rfl,
   go_back_noop_or_pop_stored_selection.2 (Ctrl.new twoRoot).nextC
     (Ctrl.new twoRoot).nextC.enter_submenu.1 twoRootLevel rfl rfl rfl⟩

/-!
## C6: display of optional fields
-/

theorem isPrefixOf_single_false (pat : List Char) (c : Char) (hne : pat ≠ [])
    (hc : c ∉ pat) : pat.isPrefixOf [c] = false := by
  match pat, hne with
  | p :: ps, _ =>
    have hp : (p == c) = false := by
      have : p ≠ c := fun h => hc (by rw [h]; exact List.mem_cons_self _ _)
      simpa using fun h => this h
    cases ps with
    | nil => simp [List.isPrefixOf, hp]
    | cons q qs => simp [List.isPrefixOf, hp]

theorem isPrefixOf_append_single (pat : List Char) (c : Char) (hc : c ∉ pat) :
    ∀ xs, pat.isPrefixOf (xs ++ [c]) = pat.isPrefixOf xs := by
  induction pat with
  | nil => intro xs; simp [List.isPrefixOf]
  | cons p ps ih =>
    intro xs
    cases xs with
    | nil =>
      rw [List.nil_append]
      rw [isPrefixOf_single_false (p :: ps) c (by simp) hc]
      simp [List.isPrefixOf]
    | cons x xs2 =>
      show List.isPrefixOf (p :: ps) (x :: (xs2 ++ [c])) = _
      simp only [List.isPrefixOf]
      rw [ih (fun h => hc (List.mem_cons_of_mem p h)) xs2]

theorem containsSub_append_single (pat : List Char) (c : Char) (hc : c ∉ pat)
    (hne : pat ≠ []) : ∀ xs, containsSub pat (xs ++ [c]) = containsSub pat xs := by
  intro xs
  induction xs with
  | nil =>
    rw [List.nil_append]
    show (pat.isPrefixOf [c] || containsSub pat []) = containsSub pat []
    rw [isPrefixOf_single_false pat c hne hc]
    simp
  | cons x xs2 ih =>
    show (pat.isPrefixOf (x :: (xs2 ++ [c])) || containsSub pat (xs2 ++ [c])) = _
    rw [show x :: (xs2 ++ [c]) = (x :: xs2) ++ [c] from rfl]
    rw [isPrefixOf_append_single pat c hc (x :: xs2), ih]
    rfl

theorem replaceAll_append_single_aux (pat rep : List Char) (c : Char) (hc : c ∉ pat)
    (hne : pat ≠ []) :
    ∀ (n : Nat) (xs : List Char), xs.length ≤ n →
      replaceAll pat rep (xs ++ [c]) = replaceAll pat rep xs ++ [c] := by
  have hbase : replaceAll pat rep [c] = replaceAll pat rep [] ++ [c] := by
    rw [replaceAll_nil, replaceAll_cons]
    rw [if_neg]
    · rfl
    · intro hcon
      rw [isPrefixOf_single_false pat c hne hc] at hcon
      exact Bool.noConfusion hcon.1
  have hpatpos : 1 ≤ pat.length := by
    match pat, hne with
    | p :: ps, _ => simp
  intro n
  induction n with
  | zero =>
    intro xs h
    have hxs : xs = [] := List.length_eq_zero.mp (Nat.le_zero.mp h)
    subst hxs
    exact hbase
  | succ n ih =>
    intro xs h
    match xs with
    | [] => exact hbase
    | x :: xs2 =>
      have h2 : xs2.length ≤ n := by
        simp only [List.length_cons] at h
        omega
      rw [show (x :: xs2) ++ [c] = x :: (xs2 ++ [c]) from rfl]
      rw [replaceAll_cons pat rep x (xs2 ++ [c]), replaceAll_cons pat rep x xs2]
      have hpre : pat.isPrefixOf (x :: (xs2 ++ [c])) = pat.isPrefixOf (x :: xs2) := by
        rw [show x :: (xs2 ++ [c]) = (x :: xs2) ++ [c] from rfl]
        exact isPrefixOf_append_single pat c hc (x :: xs2)
      by_cases hp : pat.isPrefixOf (x :: xs2) = true ∧ pat ≠ []
      · rw [if_pos ⟨by rw [hpre]; exact hp.1, hp.2⟩, if_pos hp]
        have hplen : pat.length ≤ (x :: xs2).length :=
          (List.isPrefixOf_iff_prefix.mp hp.1).length_le
        rw [show x :: (xs2 ++ [c]) = (x :: xs2) ++ [c] from rfl]
        rw [List.drop_append_of_le_length hplen]
        have hdlen : ((x :: xs2).drop pat.length).length ≤ n := by
          simp only [List.length_drop, List.length_cons]
          omega
        rw [ih _ hdlen]
        rw [List.append_assoc]
      · rw [if_neg (fun hcon => hp ⟨by rw [← hpre]; exact hcon.1, hcon.2⟩), if_neg hp]
        rw [ih xs2 h2]
        rfl

theorem replaceAll_append_single (pat rep : List Char) (c : Char) (hc : c ∉ pat)
    (hne : pat ≠ []) (xs : List Char) :
    replaceAll pat rep (xs ++ [c]) = replaceAll pat rep xs ++ [c] :=
  replaceAll_append_single_aux pat rep c hc hne xs.length xs le_rfl

theorem replaceAll_singleton_filter (a : Char) :
    ∀ xs, replaceAll [a] [] xs = xs.filter (fun x => !(x == a)) := by
  intro xs
  induction xs with
  | nil => rfl
  | cons x xs2 ih =>
    rw [replaceAll_cons]
    by_cases hx : (a == x) = true
    · have hax : a = x := by simpa using hx
      subst hax
      rw [if_pos ⟨by simp [List.isPrefixOf], by simp⟩]
      simp only [List.length_singleton, List.drop_succ_cons, List.drop_zero, List.nil_append]
      rw [ih]
      simp [List.filter_cons]
    · rw [if_neg]
      · rw [ih]
        have : (x == a) = false := by
          simp only [beq_eq_false_iff_ne]
          intro hcon
          rw [hcon] at hx
          simp at hx
        simp [List.filter_cons, this]
      · intro hcon
        have := hcon.1
        simp only [List.isPrefixOf, Bool.and_eq_true] at this
        exact hx (by simpa using this.1)

/-- A `"None"` occurrence in the formatted `Some(...)` text can only come
from the inner text: the wrapper contributes no `N` and no occurrence can
span the boundaries. -/
theorem strContains_wrap_some (inner : String) :
    strContains ("Some(" ++ inner ++ ")") "None" = strContains inner "None" := by
  have hdata : ("Some(" ++ inner ++ ")").data =
      'S' :: 'o' :: 'm' :: 'e' :: '(' :: (inner.data ++ [')']) := by
    simp [String.data_append]
  show containsSub "None".data ("Some(" ++ inner ++ ")").data = containsSub "None".data inner.data
  rw [hdata]
  show containsSub "None".data (inner.data ++ [')']) = containsSub "None".data inner.data
  exact containsSub_append_single "None".data ')' (by decide) (by decide) inner.data

/-- Stripping the wrapper text from `Some(inner)` gives exactly the result of
applying the same two replacements to the inner text alone. -/
theorem strip_wrap_some (inner : String) :
    strReplace (strReplace ("Some(" ++ inner ++ ")") "Some(" "") ")" "" =
      strReplace (strReplace inner "Some(" "") ")" "" := by
  have hdata : ("Some(" ++ inner ++ ")").data =
      "Some(".data ++ (inner.data ++ [')']) := by
    simp [String.data_append]
  have hstep1 : replaceAll "Some(".data [] ("Some(" ++ inner ++ ")").data =
      replaceAll "Some(".data [] inner.data ++ [')'] := by
    rw [hdata]
    have hpre : ("Some(".data).isPrefixOf ("Some(".data ++ (inner.data ++ [')'])) = true :=
      List.isPrefixOf_iff_prefix.mpr (List.prefix_append _ _)
    rw [show "Some(".data ++ (inner.data ++ [')']) =
      'S' :: 'o' :: 'm' :: 'e' :: '(' :: (inner.data ++ [')']) from rfl] at hpre ⊢
    rw [replaceAll_cons]
    rw [if_pos ⟨hpre, by decide⟩]
    rw [show (('S' :: 'o' :: 'm' :: 'e' :: '(' :: (inner.data ++ [')'])).drop
      ("Some(".data).length) = inner.data ++ [')'] from rfl]
    rw [List.nil_append]
    exact replaceAll_append_single "Some(".data [] ')' (by decide) (by decide) inner.data
  show String.mk (replaceAll ")".data [] (replaceAll "Some(".data [] ("Some(" ++ inner ++ ")").data)) =
    String.mk (replaceAll ")".data [] (replaceAll "Some(".data [] inner.data))
  rw [hstep1]
  rw [show (")".data) = [')'] from rfl]
  rw [replaceAll_singleton_filter ')' (replaceAll "Some(".data [] inner.data ++ [')'])]
  rw [replaceAll_singleton_filter ')' (replaceAll "Some(".data [] inner.data)]
  rw [List.filter_append]
  simp

/-- C6 counterexample: the optional string leaf holds the present value
`Some("None")`, yet the menu shows the unset marker, because presence is
detected by searching the formatted text for `"None"`. -/
theorem option_display_misreads_present_value :
    (lookupPathV optRoot ["opt"] = some (.optPrim .str (some (.s "None")))) ∧
    ((MenuState.new optRoot).items.map (fun i => i.value) = ["<not set>"]) ∧
    (some (PrimVal.s "None") ≠ (none : Option PrimVal)) :=
  ⟨rfl, rfl, by decide⟩

/-- C6 amended: for an optional primitive leaf the displayed text is the
fixed marker exactly when the value's `Debug` text contains the substring
`"None"` — which holds for every absent value, but also for present values
whose text happens to contain it; otherwise the display is the inner value's
text with every occurrence of `"Some("` and every `")"` character removed
(so parentheses belonging to the value are stripped as well). -/
theorem option_display_flag_heuristic (name : String) (t : PrimTy) (ov : Option PrimVal) :
    (ov = none → (buildItem name (.optPrim t ov)).value = "<not set>") ∧
    (∀ pv, ov = some pv → strContains (debugPrim pv) "None" = true →
      (buildItem name (.optPrim t ov)).value = "<not set>") ∧
    (∀ pv, ov = some pv → strContains (debugPrim pv) "None" = false →
      (buildItem name (.optPrim t ov)).value =
        strReplace (strReplace (debugPrim pv) "Some(" "") ")" "") := by
  refine ⟨?_, ?_, ?_⟩
  · intro h
    subst h
    rfl
  · intro pv h hcont
    subst h
    show (if strContains ("Some(" ++ debugPrim pv ++ ")") "None" = true
      then "<not set>"
      else strReplace (strReplace ("Some(" ++ debugPrim pv ++ ")") "Some(" "") ")" "") = _
    rw [strContains_wrap_some (debugPrim pv), hcont]
    rfl
  · intro pv h hcont
    subst h
    show (if strContains ("Some(" ++ debugPrim pv ++ ")") "None" = true
      then "<not set>"
      else strReplace (strReplace ("Some(" ++ debugPrim pv ++ ")") "Some(" "") ")" "") = _
    rw [strContains_wrap_some (debugPrim pv), hcont]
    rw [if_neg (by simp)]
    exact strip_wrap_some (debugPrim pv)

/-- Witness for C6 on the three branches: an absent value, the misread
present value `Some("None")`, and a clean present value `Some("a)b")`. -/
theorem option_display_flag_heuristic_witness :
    ((buildItem "o" (.optPrim .str none)).value = "<not set>") ∧
    (strContains (debugPrim (.s "None")) "None" = true ∧
      (buildItem "o" (.optPrim .str (some (.s "None")))).value = "<not set>") ∧
    (strContains (debugPrim (.s "a)b")) "None" = false ∧
      (buildItem "o" (.optPrim .str (some (.s "a)b")))).value =
        strReplace (strReplace (debugPrim (.s "a)b")) "Some(" "") ")" "") :=
  ⟨(option_display_flag_heuristic "o" .str none).1 rfl,
   ⟨rfl, (option_display_flag_heuristic "o" .str (some (.s "None"))).2.1 _ rfl rfl⟩,
   ⟨rfl, (option_display_flag_heuristic "o" .str (some (.s "a)b"))).2.2 _ rfl rfl⟩⟩

/-!
## C10: toggling a boolean twice
-/

/-- With an item selected, the current field path ends in its label and is
therefore non-empty. -/
theorem get_current_field_path_ne_nil (ms : MenuState) (item : MenuItem)
    (h : ms.get_current_item = some item) : ms.get_current_field_path ≠ [] := by
  simp only [MenuState.get_current_field_path, h]
  simp

/-- What `toggle_boolean` does on a selected boolean leaf whose displayed
text and stored value agree on `b`: it commits the functional update of the
current field path to `!b` and rebuilds-and-replays the navigation state,
touching nothing else. -/
theorem toggle_commit_on_bool (c : Ctrl) (item : MenuItem) (b : Bool)
    (hitem : c.menu_state.get_current_item = some item)
    (hbool : item.field_type = FieldType.Bool)
    (hsub : item.is_submenu = false)
    (hvec : item.is_vec_container = false)
    (hval : item.value = (if b then "true" else "false"))
    (hleaf : lookupPathV c.config c.menu_state.get_current_field_path =
      some (.prim (.b b))) :
    c.toggle_boolean =
      ({ c with
          config := specSetPath c.config c.menu_state.get_current_field_path
            (.prim (.b (!b)))
          menu_state := replayPath
            (MenuState.new (specSetPath c.config c.menu_state.get_current_field_path
              (.prim (.b (!b)))))
            (specSetPath c.config c.menu_state.get_current_field_path (.prim (.b (!b))))
            c.menu_state.get_navigation_path }, .ok ()) := by
  have hne : c.menu_state.get_current_field_path ≠ [] :=
    get_current_field_path_ne_nil c.menu_state item hitem
  have hps : parse_and_set (.prim (.b b)) (if item.value = "true" then "false" else "true") =
      .ok (.prim (.b (!b))) := by
    rw [hval]
    cases b <;> rfl
  have happ : apply_edit_at_path c.config c.menu_state.get_current_field_path
      (if item.value = "true" then "false" else "true") =
      .ok (specSetPath c.config c.menu_state.get_current_field_path (.prim (.b (!b)))) := by
    rw [apply_edit_at_path_spec c.config _ (.b b) _ hleaf hne, hps]
    rfl
  have hg : item.field_type = FieldType.Bool ∧ item.is_submenu = false ∧
      item.is_vec_container = false := ⟨hbool, hsub, hvec⟩
  simp only [Ctrl.toggle_boolean, hitem, if_pos hg, happ]

/-- C10 amended: on a selected boolean leaf showing `"true"` and storing
`true`, one `toggle_boolean` commits the stored value `false` at the current
field path without touching the Editing flag; whenever the post-commit
rebuild-and-replay leaves that same leaf selected again (same field path,
boolean leaf item showing `"false"` — in particular for the first field of
the root configuration), a second `toggle_boolean` returns the stored value
at that path to `true`, with the Editing flag again untouched.  A leaf that
loses the selection in the rebuild (for example index 1 at the root) is no
longer the item the second call acts on. -/
theorem toggle_boolean_twice_returns_true (c : Ctrl) (item : MenuItem)
    (hitem : c.menu_state.get_current_item = some item)
    (hbool : item.field_type = FieldType.Bool)
    (hsub : item.is_submenu = false)
    (hvec : item.is_vec_container = false)
    (hval : item.value = "true")
    (hleaf : lookupPathV c.config c.menu_state.get_current_field_path =
      some (.prim (.b true))) :
    (c.toggle_boolean.2 = .ok ()) ∧
    (lookupPathV c.toggle_boolean.1.config c.menu_state.get_current_field_path =
      some (.prim (.b false))) ∧
    (c.toggle_boolean.1.editing_mode = c.editing_mode) ∧
    (∀ item2, c.toggle_boolean.1.menu_state.get_current_item = some item2 →
      item2.field_type = FieldType.Bool → item2.is_submenu = false →
      item2.is_vec_container = false → item2.value = "false" →
      c.toggle_boolean.1.menu_state.get_current_field_path =
        c.menu_state.get_current_field_path →
      (c.toggle_boolean.1.toggle_boolean.2 = .ok ()) ∧
      (lookupPathV c.toggle_boolean.1.toggle_boolean.1.config
        c.menu_state.get_current_field_path = some (.prim (.b true))) ∧
      (c.toggle_boolean.1.toggle_boolean.1.editing_mode = c.editing_mode)) := by
  have h1 := toggle_commit_on_bool c item true hitem hbool hsub hvec hval hleaf
  have hcfg1 : c.toggle_boolean.1.config =
      specSetPath c.config c.menu_state.get_current_field_path (.prim (.b false)) := by
    rw [h1]
    rfl
  have hleaf1 : lookupPathV c.toggle_boolean.1.config c.menu_state.get_current_field_path =
      some (.prim (.b false)) := by
    rw [hcfg1]
    exact lookupPathV_specSetPath_self _ c.config _ _ hleaf
  refine ⟨by rw [h1], hleaf1, by rw [h1], ?_⟩
  intro item2 hitem2 hbool2 hsub2 hvec2 hval2 hpatheq
  have hleaf2 : lookupPathV c.toggle_boolean.1.config
      c.toggle_boolean.1.menu_state.get_current_field_path = some (.prim (.b false)) := by
    rw [hpatheq]
    exact hleaf1
  have h2 := toggle_commit_on_bool c.toggle_boolean.1 item2 false hitem2 hbool2 hsub2 hvec2
    (by rw [hval2]; rfl) hleaf2
  have hcfg2 : c.toggle_boolean.1.toggle_boolean.1.config =
      specSetPath c.toggle_boolean.1.config
        c.toggle_boolean.1.menu_state.get_current_field_path (.prim (.b true)) := by
    rw [h2]
    rfl
  refine ⟨by rw [h2], ?_, by rw [h2, h1]⟩
  rw [hcfg2, hpatheq]
  exact lookupPathV_specSetPath_self _ c.toggle_boolean.1.config _ _ hleaf1

/-- Witness for C10 over `boolRoot` (= `{enabled: bool = true}`): the leaf is
the first root field, so after the first commit it is selected again showing
`"false"`, and the inner branch applies — both toggles succeed and the value
returns to `true`, Editing never entered. -/
theorem toggle_boolean_twice_returns_true_witness :
    ((Ctrl.new boolRoot).menu_state.get_current_item = some
      { label := "enabled", value := "true", is_submenu := false,
        is_vec_container := false, field_type := .Bool }) ∧
    (lookupPathV (Ctrl.new boolRoot).config
      (Ctrl.new boolRoot).menu_state.get_current_field_path = some (.prim (.b true))) ∧
    ((Ctrl.new boolRoot).toggle_boolean.2 = .ok ()) ∧
    (lookupPathV (Ctrl.new boolRoot).toggle_boolean.1.config
      (Ctrl.new boolRoot).menu_state.get_current_field_path = some (.prim (.b false))) ∧
    ((Ctrl.new boolRoot).toggle_boolean.1.editing_mode = (Ctrl.new boolRoot).editing_mode) ∧
    ((Ctrl.new boolRoot).toggle_boolean.1.toggle_boolean.2 = .ok ()) ∧
    (lookupPathV (Ctrl.new boolRoot).toggle_boolean.1.toggle_boolean.1.config
      (Ctrl.new boolRoot).menu_state.get_current_field_path = some (.prim (.b true))) ∧
    ((Ctrl.new boolRoot).toggle_boolean.1.toggle_boolean.1.editing_mode =
      (Ctrl.new boolRoot).editing_mode) := by
  have H := toggle_boolean_twice_returns_true (Ctrl.new boolRoot)
    { label := "enabled", value := "true", is_submenu := false,
      is_vec_container := false, field_type := .Bool }
    rfl rfl rfl rfl rfl rfl
  have Hin := H.2.2.2
    { label := "enabled", value := "false", is_submenu := false,
      is_vec_container := false, field_type := .Bool }
    rfl rfl rfl rfl rfl rfl
  exact ⟨rfl, rfl, H.1, H.2.1, H.2.2.1, Hin.1, Hin.2.1, Hin.2.2⟩

/-- C10 counterexample: for a boolean leaf at index 1, the first toggle
commits `false` but the rebuild resets the selection to item 0 (the string
leaf), so the second `toggle_boolean` is a no-op and the stored value stays
`false` instead of returning to `true`. -/
theorem toggle_boolean_twice_not_roundtrip_off_head :
    (lookupPathV (Ctrl.new offHeadRoot).nextC.toggle_boolean.1.config ["enabled"] =
      some (.prim (.b false))) ∧
    ((Ctrl.new offHeadRoot).nextC.toggle_boolean.1.menu_state.current_selection = 0) ∧
    ((Ctrl.new offHeadRoot).nextC.toggle_boolean.1.toggle_boolean =
      ((Ctrl.new offHeadRoot).nextC.toggle_boolean.1, .ok ())) ∧
    (lookupPathV (Ctrl.new offHeadRoot).nextC.toggle_boolean.1.toggle_boolean.1.config
      ["enabled"] = some (.prim (.b false))) ∧
    (PrimVal.b false ≠ PrimVal.b true) :=
  ⟨rfl, rfl, rfl, rfl, by decide⟩
